import Mathlib

/-!
# HtsgetServer: HTTP message model and request parser

A shallow embedding of `src/HtsgetServer/src/Message.cpp` and
`src/HtsgetServer/src/RequestParser.cpp`.

* A C++ `char` is an `Int` (its integer value); a `std::string` is a list of them.
* A `std::vector<HeaderType>` is a list of pairs.
* A failed `assert` is the result `none`.
* `RequestParser::consume` mutates `state_` and the `Request`; here it returns the
  new state, the new request and the status.
-/

namespace Http

/-! ## Data model (Message.h) -/

/-- A `std::string`: the integer values of its `char`s. -/
abbrev CString := List Int

/-- The characters of an ASCII literal, as C++ `char` values. -/
def lit (s : String) : CString := s.toList.map (fun ch => (ch.toNat : Int))

/-- The type `Message::HeaderType`, a `std::pair` of name and value. -/
abbrev HeaderType := CString × CString

/-- The `class Message` of Message.h. -/
structure Message where
  version_major_ : Int
  version_minor_ : Int
  headers_ : List HeaderType
  body_ : CString
deriving DecidableEq, Repr

/-- Modelled from the spec: `Request.h` is missing. A Request extends Message with a
method and a uri; `consume` appends characters to both with `push_back`, so both are
character sequences here. -/
structure Request extends Message where
  method_ : CString
  uri_ : CString
deriving DecidableEq, Repr

/-- A Request before parsing: no method, no uri, no headers, no body. The two version
numbers, which `Message` does not initialise, are 0 here; the parser overwrites them. -/
def Request.empty : Request :=
  { version_major_ := 0, version_minor_ := 0, headers_ := [], body_ := [],
    method_ := [], uri_ := [] }

/-! ## Message.cpp -/

/-- The effect of `f(headers_.back())` for a mutating `f`. -/
def modify_back (f : HeaderType → HeaderType) : List HeaderType → List HeaderType
  | [] => []
  | [x] => [f x]
  | x :: y :: ys => x :: modify_back f (y :: ys)

/-- The method `Message::build_header_name`: `none` when the `assert` fails. -/
def Message.build_header_name (m : Message) (c : Int) : Option Message :=
  if m.headers_.length ≠ 0 then
    some { m with headers_ := modify_back (fun h => (h.1 ++ [c], h.2)) m.headers_ }
  else none

/-- The method `Message::build_header_value`: `none` when the `assert` fails. -/
def Message.build_header_value (m : Message) (c : Int) : Option Message :=
  if m.headers_.length ≠ 0 then
    some { m with headers_ := modify_back (fun h => (h.1, h.2 ++ [c])) m.headers_ }
  else none

/-- The algorithm `std::find_if`: the position of the first element satisfying `p`, the length of the
sequence (the `end` iterator) when there is none. -/
def find_if (p : HeaderType → Bool) : List HeaderType → Nat
  | [] => 0
  | x :: xs => if p x then 0 else find_if p xs + 1

/-- The method `Message::header_set`: assign to the first header with the name when
`find_if` finds one, `push_back` otherwise. -/
def header_set (name value : CString) (headers_ : List HeaderType) : List HeaderType :=
  let header := (name, value)
  let found := find_if (fun header => header.1 == name) headers_
  if found ≠ headers_.length then
    headers_.set found header
  else
    headers_ ++ [header]

/-- The loop of `std::remove_if`: `i` reads forward to the end and an element that is
kept is move-assigned to the write cursor `w`, which then advances. The first argument
bounds the number of turns. Returns the storage and the cursor. -/
def remove_if_loop (p : HeaderType → Bool) :
    Nat → Nat → Nat → List HeaderType → List HeaderType × Nat
  | 0, _, w, v => (v, w)
  | n + 1, i, w, v =>
    match v[i]? with
    | none => (v, w)
    | some x =>
      if p x then remove_if_loop p n (i + 1) w v
      else remove_if_loop p n (i + 1) (w + 1) (v.set w x)

/-- The algorithm `std::remove_if` over the whole vector: `find_if` for the first element
to remove; when there is one, the loop from the element after it, writing from its
position. Returns the storage afterwards and the iterator returned (the new logical
end). -/
def remove_if (p : HeaderType → Bool) (v : List HeaderType) : List HeaderType × Nat :=
  let first := find_if p v
  if first ≠ v.length then remove_if_loop p v.length (first + 1) first v
  else (v, first)

/-- The method `Message::header_unset`: `remove_if`, then `erase(end, headers_.end())`. -/
def header_unset (name : CString) (headers_ : List HeaderType) : List HeaderType :=
  let r := remove_if (fun header => header.1 == name) headers_
  r.1.take r.2

/-! ## RequestParser.cpp: character classes -/

/-- ASCII: `c >= 0 && c <= 127`. -/
def is_char (c : Int) : Bool := decide (c ≥ 0) && decide (c ≤ 127)

/-- Decimal digit: `c >= 48 && c <= 57`. -/
def is_digit (c : Int) : Bool := decide (c ≥ 48) && decide (c ≤ 57)

/-- Control character: `(c >= 0 && c <= 31) || c == 127`. -/
def is_ctl (c : Int) : Bool := (decide (c ≥ 0) && decide (c ≤ 31)) || c == 127

/-- Carriage return: `c == 13`. -/
def is_cr (c : Int) : Bool := c == 13

/-- Line feed: `c == 10`. -/
def is_lf (c : Int) : Bool := c == 10

/-- Space: `c == 32`. -/
def is_sp (c : Int) : Bool := c == 32

/-- Horizontal tab: `c == 9`. -/
def is_ht (c : Int) : Bool := c == 9

/-- The `switch` of `is_separator`, in the order of its `case` labels:
`( ) < > @ , ; : \ " / [ ] ? = { } SP HT`. -/
def is_separator (c : Int) : Bool :=
  c == 40 || c == 41 || c == 60 || c == 62 || c == 64 || c == 44 || c == 59 || c == 58 ||
  c == 92 || c == 34 || c == 47 || c == 91 || c == 93 || c == 63 || c == 61 || c == 123 ||
  c == 125 || c == 32 || c == 9

/-- Token character: `!is_ctl(c) && !is_separator(c) && is_char(c)`. -/
def is_token (c : Int) : Bool := !is_ctl c && !is_separator c && is_char c

/-- The test `is_uri`: a linear search of `uri_charset`. The array is declared in
`RequestParser.h`, which is missing, so it is a parameter. -/
def is_uri (uri_charset : CString) (c : Int) : Bool :=
  match uri_charset with
  | [] => false
  | b :: rest => if c == b then true else is_uri rest c

/-! ## RequestParser.cpp: the state machine -/

/-- The enumeration `RequestParser::State`: the enumerators named in `consume`. The enumeration is
declared in `RequestParser.h`, which is missing; `other` stands for any enumerator that
`consume` does not name, which its `switch` sends to `default`. -/
inductive State where
  | req_start
  | req_start_lf
  | req_method
  | req_uri
  | req_http_h
  | req_http_ht
  | req_http_htt
  | req_http_http
  | req_http_slash
  | req_http_major
  | req_http_dot
  | req_http_minor
  | req_start_line_cr
  | req_start_line_lf
  | req_field_name_start
  | req_field_name
  | req_field_value
  | req_header_lf
  | req_header_lws
  | req_header_end
  | other
deriving DecidableEq, Repr

/-- The enumeration `RequestParser::ParseStatus`. -/
inductive ParseStatus where
  | accept
  | reject
  | in_progress
deriving DecidableEq, Repr

/-- What one call of `consume` leaves behind: `state_`, the request, and the status
returned. -/
structure Consumed where
  state_ : State
  request : Request
  status : ParseStatus
deriving DecidableEq, Repr

/-- The call `request.build_header_name(c)`. -/
def Request.build_header_name (request : Request) (c : Int) : Option Request :=
  (request.toMessage.build_header_name c).map (fun m => { request with toMessage := m })

/-- The call `request.build_header_value(c)`. -/
def Request.build_header_value (request : Request) (c : Int) : Option Request :=
  (request.toMessage.build_header_value c).map (fun m => { request with toMessage := m })

/-- The call `request.headers_.emplace_back()`: a new empty header at the end. -/
def Request.emplace_back (request : Request) : Request :=
  { request with headers_ := request.headers_ ++ [([], [])] }

/-- The body of `case s::req_field_name`. `case s::req_field_name_start` has no
`return` after its two `if`s and falls through into it. -/
def consume_req_field_name (state_ : State) (request : Request) (c : Int) :
    Option Consumed :=
  if is_token c then
    (request.build_header_name c).map (fun r => ⟨state_, r, .in_progress⟩)
  else if c == 58 then
    some ⟨.req_field_value, request, .in_progress⟩
  else
    some ⟨state_, request, .reject⟩

/-- The method `RequestParser::consume`. The result `none` is a failed `assert` of `build_header_name` or
`build_header_value`. -/
def consume (uri_charset : CString) (state_ : State) (request : Request) (c : Int) :
    Option Consumed :=
  match state_ with
  | .req_start =>
    if is_cr c then some ⟨.req_start_lf, request, .in_progress⟩
    else if is_token c then
      some ⟨.req_method, { request with method_ := request.method_ ++ [c] }, .in_progress⟩
    else some ⟨state_, request, .reject⟩
  | .req_start_lf =>
    if is_lf c then some ⟨.req_start, request, .in_progress⟩
    else some ⟨state_, request, .reject⟩
  | .req_method =>
    if is_token c then
      some ⟨state_, { request with method_ := request.method_ ++ [c] }, .in_progress⟩
    else if is_sp c then some ⟨.req_uri, request, .in_progress⟩
    else some ⟨state_, request, .reject⟩
  | .req_uri =>
    if is_uri uri_charset c then
      some ⟨state_, { request with uri_ := request.uri_ ++ [c] }, .in_progress⟩
    else if is_sp c then some ⟨.req_http_h, request, .in_progress⟩
    else some ⟨state_, request, .reject⟩
  | .req_http_h =>
    if c == 72 then some ⟨.req_http_ht, request, .in_progress⟩
    else some ⟨state_, request, .reject⟩
  | .req_http_ht =>
    if c == 84 then some ⟨.req_http_htt, request, .in_progress⟩
    else some ⟨state_, request, .reject⟩
  | .req_http_htt =>
    if c == 84 then some ⟨.req_http_http, request, .in_progress⟩
    else some ⟨state_, request, .reject⟩
  | .req_http_http =>
    if c == 80 then some ⟨.req_http_slash, request, .in_progress⟩
    else some ⟨state_, request, .reject⟩
  | .req_http_slash =>
    if c == 47 then some ⟨.req_http_major, request, .in_progress⟩
    else some ⟨state_, request, .reject⟩
  | .req_http_major =>
    if is_digit c then
      some ⟨.req_http_dot, { request with version_major_ := c - 48 }, .in_progress⟩
    else some ⟨state_, request, .reject⟩
  | .req_http_dot =>
    if c == 46 then some ⟨.req_http_minor, request, .in_progress⟩
    else some ⟨state_, request, .reject⟩
  | .req_http_minor =>
    if is_digit c then
      some ⟨.req_start_line_cr, { request with version_minor_ := c - 48 }, .in_progress⟩
    else some ⟨state_, request, .reject⟩
  | .req_start_line_cr =>
    if is_cr c then some ⟨.req_start_line_lf, request, .in_progress⟩
    else some ⟨state_, request, .reject⟩
  | .req_start_line_lf =>
    if is_lf c then some ⟨.req_field_name_start, request, .in_progress⟩
    else some ⟨state_, request, .reject⟩
  | .req_field_name_start =>
    if is_cr c then some ⟨.req_header_end, request, .in_progress⟩
    else if is_token c then
      (request.emplace_back.build_header_name c).map
        (fun r => ⟨.req_field_name, r, .in_progress⟩)
    else consume_req_field_name state_ request c
  | .req_field_name => consume_req_field_name state_ request c
  | .req_field_value =>
    if is_sp c || is_ht c then some ⟨state_, request, .in_progress⟩
    else if is_cr c then some ⟨.req_header_lf, request, .in_progress⟩
    else if !is_ctl c then
      (request.build_header_value c).map (fun r => ⟨state_, r, .in_progress⟩)
    else some ⟨state_, request, .reject⟩
  | .req_header_lf =>
    if is_lf c then some ⟨.req_header_lws, request, .in_progress⟩
    else some ⟨state_, request, .reject⟩
  | .req_header_lws =>
    if is_sp c || is_ht c then some ⟨.req_field_value, request, .in_progress⟩
    else if is_cr c then some ⟨.req_header_end, request, .in_progress⟩
    else if is_token c then
      (request.emplace_back.build_header_name c).map
        (fun r => ⟨.req_field_name, r, .in_progress⟩)
    else some ⟨state_, request, .reject⟩
  | .req_header_end =>
    if is_lf c then some ⟨state_, request, .accept⟩
    else some ⟨state_, request, .reject⟩
  | .other => some ⟨state_, request, .reject⟩

/-- What feeding a character sequence leaves behind: the parser state, the request and
the statuses returned, one per character. -/
structure Fed where
  state_ : State
  request : Request
  statuses : List ParseStatus
deriving DecidableEq, Repr

/-- Feeding the characters of `w` one at a time to `consume`, whatever it returns.
`none` when an `assert` fails on the way. -/
def feed (uri_charset : CString) : State → Request → CString → Option Fed
  | state_, request, [] => some ⟨state_, request, []⟩
  | state_, request, c :: w =>
    match consume uri_charset state_ request c with
    | none => none
    | some r =>
      (feed uri_charset r.state_ r.request w).map
        (fun f => ⟨f.state_, f.request, r.status :: f.statuses⟩)

/-! ## Inputs of the request grammar -/

/-- Blank lines: CR LF, `n` times. -/
def blank_lines : Nat → CString
  | 0 => []
  | n + 1 => 13 :: 10 :: blank_lines n

/-- The request line `METHOD SP URI SP "HTTP/" d "." d CRLF`. -/
def request_line (method uri : CString) (major minor : Int) : CString :=
  method ++ 32 :: (uri ++ [32, 72, 84, 84, 80, 47, major, 46, minor, 13, 10])

/-- A header line `name ":" value CRLF`, `value` being all the text after the colon. -/
def header_line (h : HeaderType) : CString := h.1 ++ 58 :: (h.2 ++ [13, 10])

/-- The header lines of a list of (name, value) pairs, in order. -/
def header_lines : List HeaderType → CString
  | [] => []
  | h :: hs => header_line h ++ header_lines hs

/-- The request `METHOD SP URI SP "HTTP/" d "." d CRLF (name ":" value CRLF)* CRLF`. -/
def request_text (method uri : CString) (major minor : Int) (headers : List HeaderType) :
    CString :=
  request_line method uri major minor ++ (header_lines headers ++ [13, 10])

/-- Well-formed parts of a request: the method and each header name are non-empty
strings of token characters, the uri is a non-empty string of characters of the uri
charset, the version numbers are decimal digits, each header value is a string of
non-control characters. -/
def well_formed (uri_charset : CString) (method uri : CString) (major minor : Int)
    (headers : List HeaderType) : Prop :=
  method ≠ [] ∧ (∀ c ∈ method, is_token c = true) ∧
  uri ≠ [] ∧ (∀ c ∈ uri, is_uri uri_charset c = true) ∧
  is_digit major = true ∧ is_digit minor = true ∧
  ∀ h ∈ headers, h.1 ≠ [] ∧ (∀ c ∈ h.1, is_token c = true) ∧ (∀ c ∈ h.2, is_ctl c = false)

instance (uri_charset : CString) (method uri : CString) (major minor : Int)
    (headers : List HeaderType) :
    Decidable (well_formed uri_charset method uri major minor headers) := by
  unfold well_formed
  infer_instance

/-- The text after the colon with leading SP and HT skipped. -/
def skip_leading_ws (value : CString) : CString :=
  value.dropWhile (fun c => is_sp c || is_ht c)

/-- The text after the colon with every SP and HT removed. -/
def drop_ws (value : CString) : CString :=
  value.filter (fun c => !(is_sp c || is_ht c))

/-- Feeding `w` from state `st` and request `r` returns in_progress for every character
and ends in state `st2` with request `r2`. -/
def runs (uri_charset : CString) (st : State) (r : Request) (w : CString) (st2 : State)
    (r2 : Request) : Prop :=
  feed uri_charset st r w = some ⟨st2, r2, List.replicate w.length .in_progress⟩

/-- The 19 separators of RFC 2616, as the spec lists them:
`( ) < > @ , ; : \ " / [ ] ? = { } SP HT`. -/
def rfc2616_separators : List Int :=
  [40, 41, 60, 62, 64, 44, 59, 58, 92, 34, 47, 91, 93, 63, 61, 123, 125, 32, 9]

/-- The header states of the parser: `req_field_name_start`, `req_field_name`,
`req_field_value`, `req_header_lf`, `req_header_lws`, `req_header_end`. -/
def is_header_state : State → Bool
  | .req_field_name_start => true
  | .req_field_name => true
  | .req_field_value => true
  | .req_header_lf => true
  | .req_header_lws => true
  | .req_header_end => true
  | _ => false

/-- The states that match the literal `HTTP/`: the character each one expects and the
state that follows it. -/
def literal_next : State → Option (Int × State)
  | .req_http_h => some (72, .req_http_ht)
  | .req_http_ht => some (84, .req_http_htt)
  | .req_http_htt => some (84, .req_http_http)
  | .req_http_http => some (80, .req_http_slash)
  | .req_http_slash => some (47, .req_http_major)
  | _ => none

/-- The number of characters of the literal `HTTP/` still to match in a state. -/
def literal_left : State → Nat
  | .req_http_h => 5
  | .req_http_ht => 4
  | .req_http_htt => 3
  | .req_http_http => 2
  | .req_http_slash => 1
  | _ => 0

/-- The characters fed so far, the latest first, contain `HTTP/` d `.` d CR LF with `d`
decimal digits. -/
def seen_version (hist : CString) : Prop :=
  ∃ post d2 d1 pre, is_digit d1 = true ∧ is_digit d2 = true ∧
    hist = post ++ 10 :: 13 :: d2 :: 46 :: d1 :: 47 :: 80 :: 84 :: 84 :: 72 :: pre

/-- What the characters fed so far, the latest first, look like in each state when every
one of them was answered in_progress from `req_start`. -/
def seen : State → CString → Prop
  | .req_http_ht, hist => ∃ pre, hist = 72 :: pre
  | .req_http_htt, hist => ∃ pre, hist = 84 :: 72 :: pre
  | .req_http_http, hist => ∃ pre, hist = 84 :: 84 :: 72 :: pre
  | .req_http_slash, hist => ∃ pre, hist = 80 :: 84 :: 84 :: 72 :: pre
  | .req_http_major, hist => ∃ pre, hist = 47 :: 80 :: 84 :: 84 :: 72 :: pre
  | .req_http_dot, hist =>
    ∃ d1 pre, is_digit d1 = true ∧ hist = d1 :: 47 :: 80 :: 84 :: 84 :: 72 :: pre
  | .req_http_minor, hist =>
    ∃ d1 pre, is_digit d1 = true ∧ hist = 46 :: d1 :: 47 :: 80 :: 84 :: 84 :: 72 :: pre
  | .req_start_line_cr, hist =>
    ∃ d2 d1 pre, is_digit d1 = true ∧ is_digit d2 = true ∧
      hist = d2 :: 46 :: d1 :: 47 :: 80 :: 84 :: 84 :: 72 :: pre
  | .req_start_line_lf, hist =>
    ∃ d2 d1 pre, is_digit d1 = true ∧ is_digit d2 = true ∧
      hist = 13 :: d2 :: 46 :: d1 :: 47 :: 80 :: 84 :: 84 :: 72 :: pre
  | .req_field_name_start, hist => seen_version hist ∧ ∃ pre, hist = 10 :: 13 :: pre
  | .req_field_name, hist => seen_version hist
  | .req_field_value, hist => seen_version hist
  | .req_header_lf, hist => seen_version hist ∧ ∃ pre, hist = 13 :: pre
  | .req_header_lws, hist => seen_version hist ∧ ∃ pre, hist = 10 :: 13 :: pre
  | .req_header_end, hist => seen_version hist ∧ ∃ pre, hist = 13 :: 10 :: 13 :: pre
  | _, _ => True

/-! ## Message: header_set and header_unset -/

theorem header_set_nil (name value : CString) :
    header_set name value [] = [(name, value)] := by
  simp [header_set, find_if]

theorem header_set_cons (name value : CString) (x : HeaderType) (xs : List HeaderType) :
    header_set name value (x :: xs) =
      if x.1 = name then (name, value) :: xs else x :: header_set name value xs := by
  by_cases hx : x.1 = name
  · simp [header_set, find_if, hx]
  · simp only [header_set, find_if, beq_iff_eq, hx, if_false, List.length_cons, ne_eq,
      add_left_inj, List.set_cons_succ, List.cons_append]
    split <;> rfl

theorem header_set_of_not_mem (name value : CString) (h : List HeaderType)
    (hn : ∀ x ∈ h, x.1 ≠ name) : header_set name value h = h ++ [(name, value)] := by
  induction h with
  | nil => exact header_set_nil name value
  | cons x xs ih =>
    rw [header_set_cons, if_neg (hn x (List.mem_cons_self x xs)),
      ih (fun y hy => hn y (List.mem_cons_of_mem x hy))]
    rfl

theorem header_set_length_of_mem (name value : CString) (h : List HeaderType)
    (hm : ∃ x ∈ h, x.1 = name) : (header_set name value h).length = h.length := by
  induction h with
  | nil => simp at hm
  | cons x xs ih =>
    rw [header_set_cons]
    by_cases hx : x.1 = name
    · simp [hx]
    · have hm2 : ∃ y ∈ xs, y.1 = name := by
        obtain ⟨y, hy, hyn⟩ := hm
        rcases List.mem_cons.mp hy with rfl | hy
        · exact absurd hyn hx
        · exact ⟨y, hy, hyn⟩
      simp [hx, ih hm2]

/-- The position of the first header named `name`, and what `header_set` does there
and elsewhere. -/
theorem header_set_at_first (name value : CString) (h : List HeaderType)
    (hm : ∃ x ∈ h, x.1 = name) :
    ∃ i, i < h.length ∧ (∃ old, h[i]? = some (name, old)) ∧
      (∀ j, j < i → ∀ y, h[j]? = some y → y.1 ≠ name) ∧
      (header_set name value h)[i]? = some (name, value) ∧
      ∀ k, k ≠ i → (header_set name value h)[k]? = h[k]? := by
  induction h with
  | nil => simp at hm
  | cons x xs ih =>
    rw [header_set_cons]
    by_cases hx : x.1 = name
    · refine ⟨0, by simp, ⟨x.2, ?_⟩, by simp, by simp [hx], ?_⟩
      · simp [← hx]
      · intro k hk
        cases k with
        | zero => exact absurd rfl hk
        | succ k => simp [hx]
    · have hm2 : ∃ y ∈ xs, y.1 = name := by
        obtain ⟨y, hy, hyn⟩ := hm
        rcases List.mem_cons.mp hy with rfl | hy
        · exact absurd hyn hx
        · exact ⟨y, hy, hyn⟩
      obtain ⟨i, hi, hold, hbefore, hat, hother⟩ := ih hm2
      refine ⟨i + 1, by simpa using hi, by simpa using hold, ?_, by simpa [hx] using hat, ?_⟩
      · intro j hj y hy
        cases j with
        | zero =>
          simp only [List.getElem?_cons_zero, Option.some.injEq] at hy
          exact hy ▸ hx
        | succ j => exact hbefore j (by omega) y (by simpa using hy)
      · intro k hk
        cases k with
        | zero => simp [hx]
        | succ k => simpa [hx] using hother k (by omega)

/-- C7: `header_set(name, value)` on a header list `h`. If some header of `h` is named
`name`, the result has the length of `h`, the first such header (position `i`) has become
`(name, value)` and every other position is unchanged; if no header of `h` is named
`name`, the result is `h` with `(name, value)` appended at the end. -/
theorem header_set_spec (name value : CString) (h : List HeaderType) :
    ((∃ x ∈ h, x.1 = name) →
      (header_set name value h).length = h.length ∧
      ∃ i, i < h.length ∧ (∃ old, h[i]? = some (name, old)) ∧
        (∀ j, j < i → ∀ y, h[j]? = some y → y.1 ≠ name) ∧
        (header_set name value h)[i]? = some (name, value) ∧
        ∀ k, k ≠ i → (header_set name value h)[k]? = h[k]?) ∧
    ((∀ x ∈ h, x.1 ≠ name) → header_set name value h = h ++ [(name, value)]) :=
  ⟨fun hm => ⟨header_set_length_of_mem name value h hm, header_set_at_first name value h hm⟩,
   header_set_of_not_mem name value h⟩

/-- The test of `header_set`: on `[("",""), (foo,bar), (bar,baz)]`, `header_set(foo, barbar)`
keeps size 3 and the header named foo has value barbar; and an append on a list without
the name. -/
theorem header_set_spec_witness :
    (∃ x ∈ [(lit "", lit ""), (lit "foo", lit "bar"), (lit "bar", lit "baz")],
        x.1 = lit "foo") ∧
    (header_set (lit "foo") (lit "barbar")
        [(lit "", lit ""), (lit "foo", lit "bar"), (lit "bar", lit "baz")]).length = 3 ∧
    header_set (lit "foo") (lit "barbar")
        [(lit "", lit ""), (lit "foo", lit "bar"), (lit "bar", lit "baz")] =
      [(lit "", lit ""), (lit "foo", lit "barbar"), (lit "bar", lit "baz")] ∧
    (∀ x ∈ [(lit "", lit "")], x.1 ≠ lit "foo") ∧
    header_set (lit "foo") (lit "bar") [(lit "", lit "")] =
      [(lit "", lit "")] ++ [(lit "foo", lit "bar")] :=
  ⟨by decide,
   ((header_set_spec (lit "foo") (lit "barbar")
      [(lit "", lit ""), (lit "foo", lit "bar"), (lit "bar", lit "baz")]).1 (by decide)).1,
   by decide, by decide,
   (header_set_spec (lit "foo") (lit "bar") [(lit "", lit "")]).2 (by decide)⟩

theorem header_set_twice (n v : CString) (h : List HeaderType) :
    header_set n v (header_set n v h) = header_set n v h := by
  induction h with
  | nil => simp [header_set_nil, header_set_cons]
  | cons x xs ih =>
    by_cases hx : x.1 = n
    · simp [header_set_cons, hx]
    · simp [header_set_cons, hx, ih]

/-- C8: `header_set` is idempotent: applying `header_set(n, v)` twice gives the header
list of applying it once; and when `h` has no header named `n`, the headers named `n`
after the two calls are exactly one, `(n, v)`. -/
theorem header_set_idempotent (n v : CString) (h : List HeaderType) :
    header_set n v (header_set n v h) = header_set n v h ∧
    ((∀ x ∈ h, x.1 ≠ n) →
      (header_set n v (header_set n v h)).filter (fun x => x.1 == n) = [(n, v)]) := by
  refine ⟨header_set_twice n v h, fun hn => ?_⟩
  rw [header_set_twice, header_set_of_not_mem n v h hn, List.filter_append]
  have : h.filter (fun x => x.1 == n) = [] := by
    rw [List.filter_eq_nil_iff]
    intro x hx
    simpa using hn x hx
  simp [this]

/-- The spec's example: `header_set("X","1")` twice on a list without `X` leaves exactly
one header named `X`, with value `1`. -/
theorem header_set_idempotent_witness :
    (∀ x ∈ [(lit "Host", lit "a")], x.1 ≠ lit "X") ∧
    (header_set (lit "X") (lit "1") (header_set (lit "X") (lit "1") [(lit "Host", lit "a")])).filter
        (fun x => x.1 == lit "X") = [(lit "X", lit "1")] :=
  ⟨by decide, (header_set_idempotent (lit "X") (lit "1") [(lit "Host", lit "a")]).2 (by decide)⟩

/-- Loop invariant of `std::remove_if`: with the kept elements `pre` before the write
cursor, the stale elements `mid` between the cursor and the read position, and `rest`
still to read, the loop ends with `pre` followed by the kept elements of `rest` before
the cursor. -/
theorem remove_if_loop_spec (p : HeaderType → Bool) :
    ∀ (n : Nat) (rest pre mid v : List HeaderType) (i w : Nat),
      rest.length ≤ n → v = pre ++ mid ++ rest → w = pre.length →
      i = pre.length + mid.length →
      (remove_if_loop p n i w v).1.take (remove_if_loop p n i w v).2 =
        pre ++ rest.filter (fun x => !p x) := by
  intro n
  induction n with
  | zero =>
    intro rest pre mid v i w hn hv hw hi
    have hr : rest = [] := List.length_eq_zero.mp (Nat.le_zero.mp hn)
    subst hr hv hw
    simp [remove_if_loop]
  | succ n ih =>
    intro rest pre mid v i w hn hv hw hi
    cases rest with
    | nil =>
      have hnone : v[i]? = none := by
        rw [List.getElem?_eq_none_iff]
        simp [hv, hi]
      simp only [remove_if_loop, hnone]
      simp [hv, hw]
    | cons x rest =>
      have hget : v[i]? = some x := by
        subst hv hi
        rw [List.getElem?_append_right (by simp)]
        simp
      have hlen : rest.length ≤ n := by
        simp only [List.length_cons] at hn
        omega
      by_cases hp : p x = true
      · have hstep := ih rest pre (mid ++ [x]) v (i + 1) w hlen (by simp [hv]) hw
          (by simp [hi]; omega)
        simp only [remove_if_loop, hget, hp, if_true]
        rw [hstep]
        simp [List.filter_cons, hp]
      · have hpf : p x = false := by simpa using hp
        simp only [remove_if_loop, hget, hpf, Bool.false_eq_true, if_false]
        cases mid with
        | nil =>
          have hset : v.set w x = (pre ++ [x]) ++ [] ++ rest := by
            subst hv hw
            simp
          rw [ih rest (pre ++ [x]) [] (v.set w x) (i + 1) (w + 1) hlen hset
            (by simp [hw]) (by simp [hi])]
          simp [List.filter_cons, hpf]
        | cons m mid =>
          have hset : v.set w x = (pre ++ [x]) ++ (mid ++ [x]) ++ rest := by
            subst hv hw
            simp
          rw [ih rest (pre ++ [x]) (mid ++ [x]) (v.set w x) (i + 1) (w + 1) hlen hset
            (by simp [hw]) (by simp [hi]; omega)]
          simp [List.filter_cons, hpf]

/-- Where `find_if` stops: at the end when no element satisfies `p`, else at the first
element that does. -/
theorem find_if_spec (p : HeaderType → Bool) (v : List HeaderType) :
    (find_if p v = v.length ∧ ∀ x ∈ v, p x = false) ∨
    ∃ pre x post, v = pre ++ x :: post ∧ find_if p v = pre.length ∧
      (∀ y ∈ pre, p y = false) ∧ p x = true := by
  induction v with
  | nil => exact Or.inl ⟨rfl, by simp⟩
  | cons a v ih =>
    by_cases ha : p a = true
    · exact Or.inr ⟨[], a, v, rfl, by simp [find_if, ha], by simp, ha⟩
    · have haf : p a = false := by simpa using ha
      rcases ih with ⟨hlen, hall⟩ | ⟨pre, x, post, hv, hlen, hpre, hx⟩
      · refine Or.inl ⟨by simp [find_if, haf, hlen], ?_⟩
        intro y hy
        rcases List.mem_cons.mp hy with rfl | hy
        · exact haf
        · exact hall y hy
      · refine Or.inr ⟨a :: pre, x, post, by simp [hv], by simp [find_if, haf, hlen], ?_, hx⟩
        intro y hy
        rcases List.mem_cons.mp hy with rfl | hy
        · exact haf
        · exact hpre y hy

theorem filter_eq_self_of_all_false (p : HeaderType → Bool) (v : List HeaderType)
    (h : ∀ x ∈ v, p x = false) : v.filter (fun x => !p x) = v := by
  rw [List.filter_eq_self]
  intro x hx
  simp [h x hx]

theorem header_unset_eq_filter (name : CString) (h : List HeaderType) :
    header_unset name h = h.filter (fun x => !(x.1 == name)) := by
  rcases find_if_spec (fun header => header.1 == name) h with
    ⟨hlen, hall⟩ | ⟨pre, x, post, hv, hlen, hpre, hx⟩
  · have hf := filter_eq_self_of_all_false (fun header => header.1 == name) h hall
    simp only [header_unset, remove_if, hlen, ne_eq, not_true_eq_false, if_false,
      List.take_length]
    exact hf.symm
  · have hne : ¬ pre.length = h.length := by
      rw [hv]
      simp
    have hloop := remove_if_loop_spec (fun header => header.1 == name) h.length post pre [x] h
      (pre.length + 1) pre.length (by simp [hv]; omega) (by simp [hv]) rfl (by simp)
    have hf := filter_eq_self_of_all_false (fun header => header.1 == name) pre hpre
    simp only [header_unset, remove_if, hlen, ne_eq, hne, not_false_eq_true, if_true]
    rw [hloop]
    conv_rhs => rw [hv, List.filter_append, hf, List.filter_cons]
    simp [hx]

/-- C9: `header_unset(name)` returns exactly the sub-sequence of `h` made of the headers
whose name is not `name`, in their original order: no header named `name` remains, the
result is a sub-sequence of `h`, and every other header occurs as often as in `h`. On
`[(A,1),(B,2),(A,3)]` with name `A` it gives `[(B,2)]`; on `[("",""), (foo,bar), (bar,baz)]`,
`header_unset(foo)` leaves 2 headers, none named foo. -/
theorem header_unset_spec (name : CString) (h : List HeaderType) :
    header_unset name h = h.filter (fun x => decide (x.1 ≠ name)) ∧
    (∀ x ∈ header_unset name h, x.1 ≠ name) ∧
    List.Sublist (header_unset name h) h ∧
    (∀ x : HeaderType, x.1 ≠ name → (header_unset name h).count x = h.count x) ∧
    header_unset (lit "A") [(lit "A", lit "1"), (lit "B", lit "2"), (lit "A", lit "3")] =
      [(lit "B", lit "2")] ∧
    (header_unset (lit "foo")
      [(lit "", lit ""), (lit "foo", lit "bar"), (lit "bar", lit "baz")]).length = 2 ∧
    (∀ x ∈ header_unset (lit "foo")
      [(lit "", lit ""), (lit "foo", lit "bar"), (lit "bar", lit "baz")], x.1 ≠ lit "foo") := by
  have hf : header_unset name h = h.filter (fun x => decide (x.1 ≠ name)) := by
    rw [header_unset_eq_filter]
    congr 1
    funext x
    by_cases hx : x.1 = name <;> simp [hx]
  refine ⟨hf, ?_, ?_, ?_, by decide, by decide, by decide⟩
  · intro x hx
    rw [hf, List.mem_filter] at hx
    simpa using hx.2
  · rw [hf]
    exact List.filter_sublist h
  · intro x hx
    rw [hf, List.count_filter]
    simpa using hx

/-! ## RequestParser: single steps -/

/-- A call of `consume` that returns reject leaves `state_` and the request as they
were. -/
theorem consume_reject_unchanged (cs : CString) (st : State) (r : Request) (c : Int)
    (res : Consumed) (h : consume cs st r c = some res) (hs : res.status = .reject) :
    res = ⟨st, r, .reject⟩ := by
  cases st <;> simp only [consume, consume_req_field_name] at h <;>
    (try split_ifs at h) <;>
    first
    | (cases h; first | rfl | simp at hs)
    | (simp only [Option.map_eq_some'] at h
       obtain ⟨q, -, hq⟩ := h
       subst hq
       simp at hs)

/-- C6: a rejected character never mutates the Request: for every parser state, Request
and character, if `consume` returns reject, the Request after the call (method, uri,
versions, headers, body) is the Request before the call. -/
theorem consume_reject_request_unchanged (cs : CString) (st : State) (r : Request)
    (c : Int) (res : Consumed) (h : consume cs st r c = some res)
    (hs : res.status = .reject) : res.request = r := by
  rw [consume_reject_unchanged cs st r c res h hs]

/-- A colon where a method is expected is rejected and leaves the Request as it was. -/
theorem consume_reject_request_unchanged_witness :
    consume [] .req_start Request.empty 58 = some ⟨.req_start, Request.empty, .reject⟩ ∧
    (⟨.req_start, Request.empty, .reject⟩ : Consumed).status = .reject ∧
    (⟨.req_start, Request.empty, .reject⟩ : Consumed).request = Request.empty :=
  ⟨by decide, rfl,
   consume_reject_request_unchanged [] .req_start Request.empty 58
     ⟨.req_start, Request.empty, .reject⟩ (by decide) rfl⟩

/-! ## RequestParser: feeding sequences -/

theorem feed_nil (cs : CString) (st : State) (r : Request) :
    feed cs st r [] = some ⟨st, r, []⟩ := rfl

theorem feed_cons (cs : CString) (st : State) (r : Request) (c : Int) (w : CString) :
    feed cs st r (c :: w) =
      (consume cs st r c).bind (fun res =>
        (feed cs res.state_ res.request w).map
          (fun f => ⟨f.state_, f.request, res.status :: f.statuses⟩)) := by
  rw [feed]
  cases consume cs st r c <;> rfl

theorem feed_append (cs : CString) (w1 w2 : CString) :
    ∀ (st : State) (r : Request),
      feed cs st r (w1 ++ w2) =
        (feed cs st r w1).bind (fun f1 =>
          (feed cs f1.state_ f1.request w2).map (fun f2 =>
            ⟨f2.state_, f2.request, f1.statuses ++ f2.statuses⟩)) := by
  induction w1 with
  | nil =>
    intro st r
    simp only [List.nil_append, feed_nil, Option.some_bind]
    cases feed cs st r w2 <;> rfl
  | cons c w1 ih =>
    intro st r
    rw [List.cons_append, feed_cons, feed_cons]
    cases consume cs st r c with
    | none => rfl
    | some res =>
      simp only [Option.some_bind, ih]
      cases feed cs res.state_ res.request w1 with
      | none => rfl
      | some f1 =>
        simp only [Option.some_bind, Option.map_some']
        cases feed cs f1.state_ f1.request w2 <;> rfl

/-- Feeding the same rejected character again and again. -/
theorem feed_replicate_reject (cs : CString) (st : State) (r : Request) (c : Int)
    (h : consume cs st r c = some ⟨st, r, .reject⟩) (n : Nat) :
    feed cs st r (List.replicate n c) = some ⟨st, r, List.replicate n .reject⟩ := by
  induction n with
  | zero => rfl
  | succ n ih => simp [List.replicate_succ, feed_cons, h, ih]

/-- C3, as the code has it: a call of `consume` that returns reject leaves the parser
state and the Request as they were, so the same character fed again, any number of
times, is answered reject each time. Reject is not latched: a different character is
answered as it would have been before the rejected one. -/
theorem reject_repeats (cs : CString) (st : State) (r : Request) (c : Int)
    (res : Consumed) (h : consume cs st r c = some res) (hs : res.status = .reject) :
    res.state_ = st ∧ res.request = r ∧
    ∀ n, feed cs res.state_ res.request (List.replicate n c) =
      some ⟨st, r, List.replicate n .reject⟩ := by
  have hres := consume_reject_unchanged cs st r c res h hs
  subst hres
  exact ⟨rfl, rfl, feed_replicate_reject cs st r c h⟩

/-- A space where a method is expected is rejected, and rejected again. -/
theorem reject_repeats_witness :
    consume [] .req_start Request.empty 32 = some ⟨.req_start, Request.empty, .reject⟩ ∧
    feed [] .req_start Request.empty (List.replicate 3 32) =
      some ⟨.req_start, Request.empty, List.replicate 3 .reject⟩ :=
  ⟨by decide,
   (reject_repeats [] .req_start Request.empty 32 ⟨.req_start, Request.empty, .reject⟩
     (by decide) rfl).2.2 3⟩

/-- C3 as stated fails: in state `req_start`, a space is answered reject and the letter
`G` fed next to the same instance is answered in_progress. -/
theorem reject_not_permanent :
    ¬ (∀ (cs : CString) (st : State) (r : Request) (c c2 : Int) (res res2 : Consumed),
        consume cs st r c = some res → res.status = .reject →
        consume cs res.state_ res.request c2 = some res2 → res2.status = .reject) := by
  intro hall
  have := hall [] .req_start Request.empty 32 71 ⟨.req_start, Request.empty, .reject⟩
    ⟨.req_method, { Request.empty with method_ := [71] }, .in_progress⟩
    (by decide) rfl (by decide)
  simp at this

theorem feed_blank_lines (cs : CString) (r : Request) (n : Nat) :
    feed cs .req_start r (blank_lines n) =
      some ⟨.req_start, r, List.replicate (2 * n) .in_progress⟩ := by
  induction n with
  | zero => rfl
  | succ n ih =>
    have h1 : consume cs .req_start r 13 = some ⟨.req_start_lf, r, .in_progress⟩ := by
      simp [consume, is_cr]
    have h2 : consume cs .req_start_lf r 10 = some ⟨.req_start, r, .in_progress⟩ := by
      simp [consume, is_lf]
    simp only [blank_lines, feed_cons, h1, h2, ih, Option.some_bind, Option.map_some']
    rw [show 2 * (n + 1) = (2 * n + 1) + 1 by ring, List.replicate_succ, List.replicate_succ]

/-- C5: leading blank lines are skipped without effect. For every `n`, every character
sequence `w` and every Request (an empty one in particular), feeding `n` copies of CR LF
from state `req_start` returns in_progress for each of the `2n` characters and is back in
`req_start` with the Request untouched; feeding `w` after them gives the statuses, the
final state and the final Request of feeding `w` alone (and fails an `assert` exactly
when `w` alone does). -/
theorem leading_blank_lines_skipped (cs : CString) (n : Nat) (w : CString)
    (request : Request) :
    feed cs .req_start request (blank_lines n) =
      some ⟨.req_start, request, List.replicate (2 * n) .in_progress⟩ ∧
    feed cs .req_start request (blank_lines n ++ w) =
      (feed cs .req_start request w).map (fun f =>
        ⟨f.state_, f.request, List.replicate (2 * n) .in_progress ++ f.statuses⟩) := by
  refine ⟨feed_blank_lines cs request n, ?_⟩
  rw [feed_append, feed_blank_lines]
  rfl

/-! ## RequestParser: character class facts -/

theorem is_token_not_special (c : Int) (h : is_token c = true) :
    c ≠ 13 ∧ c ≠ 10 ∧ c ≠ 32 ∧ c ≠ 9 ∧ c ≠ 58 := by
  simp only [is_token, is_ctl, is_separator, is_char, Bool.and_eq_true, Bool.not_eq_true',
    Bool.or_eq_false_iff, Bool.or_eq_true, decide_eq_true_eq, decide_eq_false_iff_not,
    beq_iff_eq, beq_eq_false_iff_ne, Bool.and_eq_false_imp, ne_eq] at h
  omega

theorem not_ctl_not_special (c : Int) (h : is_ctl c = false) :
    c ≠ 13 ∧ c ≠ 10 ∧ c ≠ 9 := by
  simp only [is_ctl, Bool.or_eq_false_iff, Bool.and_eq_false_imp, decide_eq_true_eq,
    decide_eq_false_iff_not, beq_eq_false_iff_ne, ne_eq] at h
  omega

/-! ## RequestParser: building the last header -/

theorem modify_back_concat (f : HeaderType → HeaderType) (init : List HeaderType)
    (x : HeaderType) : modify_back f (init ++ [x]) = init ++ [f x] := by
  induction init with
  | nil => rfl
  | cons a init ih =>
    cases init with
    | nil => rfl
    | cons b init => exact congrArg (List.cons a) ih

theorem modify_back_length (f : HeaderType → HeaderType) (hs : List HeaderType) :
    (modify_back f hs).length = hs.length := by
  induction hs with
  | nil => rfl
  | cons a hs ih =>
    cases hs with
    | nil => rfl
    | cons b hs => simpa [modify_back] using ih

theorem build_header_name_last (r : Request) (init : List HeaderType) (a b : CString)
    (c : Int) (h : r.headers_ = init ++ [(a, b)]) :
    r.build_header_name c = some { r with headers_ := init ++ [(a ++ [c], b)] } := by
  simp [Request.build_header_name, Message.build_header_name, h, modify_back_concat]

theorem build_header_value_last (r : Request) (init : List HeaderType) (a b : CString)
    (c : Int) (h : r.headers_ = init ++ [(a, b)]) :
    r.build_header_value c = some { r with headers_ := init ++ [(a, b ++ [c])] } := by
  simp [Request.build_header_value, Message.build_header_value, h, modify_back_concat]

/-! ## RequestParser: the stages of a request -/

theorem feed_method (cs : CString) (m : CString) (hm : ∀ c ∈ m, is_token c = true) :
    ∀ r : Request, feed cs .req_method r m =
      some ⟨.req_method, { r with method_ := r.method_ ++ m },
        List.replicate m.length .in_progress⟩ := by
  induction m with
  | nil => intro r; simp [feed_nil]
  | cons c m ih =>
    intro r
    have hc : is_token c = true := hm c (List.mem_cons_self c m)
    rw [feed_cons]
    simp [consume, hc, ih (fun x hx => hm x (List.mem_cons_of_mem c hx)),
      List.replicate_succ]

theorem feed_uri (cs : CString) (u : CString) (hu : ∀ c ∈ u, is_uri cs c = true) :
    ∀ r : Request, feed cs .req_uri r u =
      some ⟨.req_uri, { r with uri_ := r.uri_ ++ u },
        List.replicate u.length .in_progress⟩ := by
  induction u with
  | nil => intro r; simp [feed_nil]
  | cons c u ih =>
    intro r
    have hc : is_uri cs c = true := hu c (List.mem_cons_self c u)
    rw [feed_cons]
    simp [consume, hc, ih (fun x hx => hu x (List.mem_cons_of_mem c hx)),
      List.replicate_succ]

theorem runs_nil (cs : CString) (st : State) (r : Request) : runs cs st r [] st r := rfl

theorem runs_cons (cs : CString) (st st1 st2 : State) (r r1 r2 : Request) (c : Int)
    (w : CString) (h1 : consume cs st r c = some ⟨st1, r1, .in_progress⟩)
    (h2 : runs cs st1 r1 w st2 r2) : runs cs st r (c :: w) st2 r2 := by
  unfold runs at h2 ⊢
  rw [feed_cons, h1]
  simp [h2, List.replicate_succ]

theorem runs_append (cs : CString) (st st1 st2 : State) (r r1 r2 : Request)
    (w1 w2 : CString) (h1 : runs cs st r w1 st1 r1) (h2 : runs cs st1 r1 w2 st2 r2) :
    runs cs st r (w1 ++ w2) st2 r2 := by
  unfold runs at h1 h2 ⊢
  rw [feed_append, h1]
  simp only [Option.some_bind, h2, Option.map_some', List.length_append, List.replicate_add]

theorem runs_method (cs : CString) (m : CString) (hm : ∀ c ∈ m, is_token c = true)
    (r : Request) : runs cs .req_method r m .req_method { r with method_ := r.method_ ++ m } :=
  feed_method cs m hm r

theorem runs_uri (cs : CString) (u : CString) (hu : ∀ c ∈ u, is_uri cs c = true)
    (r : Request) : runs cs .req_uri r u .req_uri { r with uri_ := r.uri_ ++ u } :=
  feed_uri cs u hu r

/-- The rest of the request line after the uri: `SP "HTTP/" d "." d CRLF`. -/
theorem runs_version (cs : CString) (hsp : is_uri cs 32 = false) (major minor : Int)
    (hmaj : is_digit major = true) (hmin : is_digit minor = true) (r : Request) :
    runs cs .req_uri r [32, 72, 84, 84, 80, 47, major, 46, minor, 13, 10]
      .req_field_name_start
      { r with version_major_ := major - 48, version_minor_ := minor - 48 } := by
  refine runs_cons cs _ .req_http_h _ r r _ 32 _ (by simp [consume, hsp, is_sp]) ?_
  refine runs_cons cs _ .req_http_ht _ r r _ 72 _ (by simp [consume]) ?_
  refine runs_cons cs _ .req_http_htt _ r r _ 84 _ (by simp [consume]) ?_
  refine runs_cons cs _ .req_http_http _ r r _ 84 _ (by simp [consume]) ?_
  refine runs_cons cs _ .req_http_slash _ r r _ 80 _ (by simp [consume]) ?_
  refine runs_cons cs _ .req_http_major _ r r _ 47 _ (by simp [consume]) ?_
  refine runs_cons cs _ .req_http_dot _ r { r with version_major_ := major - 48 } _ major _
    (by simp [consume, hmaj]) ?_
  refine runs_cons cs _ .req_http_minor _ _ { r with version_major_ := major - 48 } _ 46 _
    (by simp [consume]) ?_
  refine runs_cons cs _ .req_start_line_cr _ _
    { r with version_major_ := major - 48, version_minor_ := minor - 48 } _ minor _
    (by simp [consume, hmin]) ?_
  refine runs_cons cs _ .req_start_line_lf _ _
    { r with version_major_ := major - 48, version_minor_ := minor - 48 } _ 13 _
    (by simp [consume, is_cr]) ?_
  exact runs_cons cs _ .req_field_name_start _ _
    { r with version_major_ := major - 48, version_minor_ := minor - 48 } _ 10 _
    (by simp [consume, is_lf]) (runs_nil cs _ _)

theorem runs_name (cs : CString) (n : CString) (hn : ∀ c ∈ n, is_token c = true) :
    ∀ (r : Request) (init : List HeaderType) (a b : CString),
      r.headers_ = init ++ [(a, b)] →
      runs cs .req_field_name r n .req_field_name
        { r with headers_ := init ++ [(a ++ n, b)] } := by
  induction n with
  | nil =>
    intro r init a b h
    have : ({ r with headers_ := init ++ [(a ++ [], b)] } : Request) = r := by
      simp [← h]
    rw [this]
    exact runs_nil cs _ r
  | cons c n ih =>
    intro r init a b h
    have hc : is_token c = true := hn c (List.mem_cons_self c n)
    have hstep : consume cs .req_field_name r c =
        some ⟨.req_field_name, { r with headers_ := init ++ [(a ++ [c], b)] }, .in_progress⟩ := by
      simp [consume, consume_req_field_name, hc, build_header_name_last r init a b c h]
    have := ih (fun x hx => hn x (List.mem_cons_of_mem c hx))
      { r with headers_ := init ++ [(a ++ [c], b)] } init (a ++ [c]) b rfl
    simpa using runs_cons cs _ _ _ _ _ _ c n hstep this

theorem drop_ws_cons_ws (c : Int) (v : CString) (h : c = 32 ∨ c = 9) :
    drop_ws (c :: v) = drop_ws v := by
  rcases h with rfl | rfl <;> simp [drop_ws, is_sp, is_ht]

theorem drop_ws_cons_other (c : Int) (v : CString) (h32 : c ≠ 32) (h9 : c ≠ 9) :
    drop_ws (c :: v) = c :: drop_ws v := by
  simp [drop_ws, is_sp, is_ht, h32, h9]

/-- In `req_field_value`, SP and HT are skipped and every other non-control character is
appended to the value of the last header. -/
theorem runs_value (cs : CString) (v : CString) (hv : ∀ c ∈ v, is_ctl c = false ∨ c = 9) :
    ∀ (r : Request) (init : List HeaderType) (a b : CString),
      r.headers_ = init ++ [(a, b)] →
      runs cs .req_field_value r v .req_field_value
        { r with headers_ := init ++ [(a, b ++ drop_ws v)] } := by
  induction v with
  | nil =>
    intro r init a b h
    have : ({ r with headers_ := init ++ [(a, b ++ drop_ws [])] } : Request) = r := by
      simp [← h, drop_ws]
    rw [this]
    exact runs_nil cs _ r
  | cons c v ih =>
    intro r init a b h
    have hv2 : ∀ x ∈ v, is_ctl x = false ∨ x = 9 := fun x hx => hv x (List.mem_cons_of_mem c hx)
    by_cases hws : c = 32 ∨ c = 9
    · have hstep : consume cs .req_field_value r c =
          some ⟨.req_field_value, r, .in_progress⟩ := by
        rcases hws with rfl | rfl <;> simp [consume, is_sp, is_ht]
      rw [drop_ws_cons_ws c v hws]
      exact runs_cons cs _ _ _ _ _ _ c v hstep (ih hv2 r init a b h)
    · have h32 : c ≠ 32 := fun e => hws (Or.inl e)
      have h9 : c ≠ 9 := fun e => hws (Or.inr e)
      have hctl : is_ctl c = false := by
        rcases hv c (List.mem_cons_self c v) with hc | hc
        · exact hc
        · exact absurd hc h9
      have h13 : c ≠ 13 := (not_ctl_not_special c hctl).1
      have hstep : consume cs .req_field_value r c =
          some ⟨.req_field_value, { r with headers_ := init ++ [(a, b ++ [c])] },
            .in_progress⟩ := by
        simp [consume, is_sp, is_ht, is_cr, h32, h9, h13, hctl,
          build_header_value_last r init a b c h]
      have := ih hv2 { r with headers_ := init ++ [(a, b ++ [c])] } init a (b ++ [c]) rfl
      rw [drop_ws_cons_other c v h32 h9]
      simpa using runs_cons cs _ _ _ _ _ _ c v hstep this

/-- A token character where a header name may start opens a new header. -/
theorem consume_header_start (cs : CString) (st : State)
    (hst : st = .req_field_name_start ∨ st = .req_header_lws) (r : Request) (c : Int)
    (hc : is_token c = true) :
    consume cs st r c =
      some ⟨.req_field_name, { r with headers_ := r.headers_ ++ [([c], [])] },
        .in_progress⟩ := by
  obtain ⟨h13, -, h32, h9, -⟩ := is_token_not_special c hc
  have hb : r.emplace_back.build_header_name c =
      some { r with headers_ := r.headers_ ++ [([c], [])] } := by
    simpa [Request.emplace_back] using
      build_header_name_last r.emplace_back r.headers_ [] [] c rfl
  rcases hst with rfl | rfl <;>
    simp [consume, is_cr, is_sp, is_ht, h13, h32, h9, hc, hb]

/-- One header line `name ":" value CRLF`, read where a header name may start, adds the
header `(name, value without SP and HT)` and ends in `req_header_lws`. -/
theorem runs_header_line (cs : CString) (st : State)
    (hst : st = .req_field_name_start ∨ st = .req_header_lws) (r : Request)
    (h : HeaderType) (hne : h.1 ≠ []) (hn : ∀ c ∈ h.1, is_token c = true)
    (hv : ∀ c ∈ h.2, is_ctl c = false ∨ c = 9) :
    runs cs st r (header_line h) .req_header_lws
      { r with headers_ := r.headers_ ++ [(h.1, drop_ws h.2)] } := by
  obtain ⟨n, v⟩ := h
  cases n with
  | nil => exact absurd rfl hne
  | cons c n =>
    have hc : is_token c = true := hn c (List.mem_cons_self c n)
    have hname := runs_name cs n (fun x hx => hn x (List.mem_cons_of_mem c hx))
      { r with headers_ := r.headers_ ++ [([c], [])] } r.headers_ [c] [] rfl
    have hcolon : ∀ q : Request, consume cs .req_field_name q 58 =
        some ⟨.req_field_value, q, .in_progress⟩ := by
      intro q
      have : is_token 58 = false := by decide
      simp [consume, consume_req_field_name, this]
    have hvalue := runs_value cs v hv
      { r with headers_ := r.headers_ ++ [([c] ++ n, [])] } r.headers_ ([c] ++ n) [] rfl
    have hcr : ∀ q : Request, consume cs .req_field_value q 13 =
        some ⟨.req_header_lf, q, .in_progress⟩ := by
      intro q
      simp [consume, is_sp, is_ht, is_cr]
    have hlf : ∀ q : Request, consume cs .req_header_lf q 10 =
        some ⟨.req_header_lws, q, .in_progress⟩ := by
      intro q
      simp [consume, is_lf]
    have htail := runs_append cs _ _ _ _ _ _ v [13, 10] hvalue
      (runs_cons cs _ _ _ _ _ _ 13 [10] (hcr _)
        (runs_cons cs _ _ _ _ _ _ 10 [] (hlf _) (runs_nil cs _ _)))
    have hrest := runs_append cs _ _ _ _ _ _ n (58 :: (v ++ [13, 10])) hname
      (runs_cons cs _ _ _ _ _ _ 58 (v ++ [13, 10]) (hcolon _) htail)
    have hall := runs_cons cs _ _ _ _ _ _ c (n ++ 58 :: (v ++ [13, 10]))
      (consume_header_start cs st hst r c hc) hrest
    simpa [header_line] using hall

/-- Header lines, read where a header name may start, add their headers in order and
end where a header name may start. -/
theorem runs_header_lines (cs : CString) (hs : List HeaderType)
    (hwf : ∀ h ∈ hs, h.1 ≠ [] ∧ (∀ c ∈ h.1, is_token c = true) ∧
      (∀ c ∈ h.2, is_ctl c = false ∨ c = 9)) :
    ∀ (st : State) (r : Request), (st = .req_field_name_start ∨ st = .req_header_lws) →
      ∃ st2, (st2 = .req_field_name_start ∨ st2 = .req_header_lws) ∧
        runs cs st r (header_lines hs) st2
          { r with headers_ := r.headers_ ++ hs.map (fun h => (h.1, drop_ws h.2)) } := by
  induction hs with
  | nil =>
    intro st r hst
    refine ⟨st, hst, ?_⟩
    have : ({ r with headers_ :=
        r.headers_ ++ ([] : List HeaderType).map (fun h => (h.1, drop_ws h.2)) } :
        Request) = r := by simp
    rw [this]
    exact runs_nil cs st r
  | cons h hs ih =>
    intro st r hst
    obtain ⟨hne, hn, hv⟩ := hwf h (List.mem_cons_self h hs)
    have h1 := runs_header_line cs st hst r h hne hn hv
    obtain ⟨st2, hst2, h2⟩ := ih (fun x hx => hwf x (List.mem_cons_of_mem h hx))
      .req_header_lws { r with headers_ := r.headers_ ++ [(h.1, drop_ws h.2)] } (Or.inr rfl)
    refine ⟨st2, hst2, ?_⟩
    simpa [header_lines] using runs_append cs _ _ _ _ _ _ _ _ h1 h2

/-- The empty line that ends the headers: in_progress for CR, accept for LF. -/
theorem feed_end (cs : CString) (st : State)
    (hst : st = .req_field_name_start ∨ st = .req_header_lws) (r : Request) :
    feed cs st r [13, 10] = some ⟨.req_header_end, r, [.in_progress, .accept]⟩ := by
  rcases hst with rfl | rfl <;>
    simp [feed_cons, feed_nil, consume, is_cr, is_lf, is_sp, is_ht]

/-- The request line, read from `req_start`, fills method, uri and the two version
numbers and ends in `req_field_name_start`. -/
theorem runs_request_line (cs : CString) (hsp : is_uri cs 32 = false) (method uri : CString)
    (major minor : Int) (hne : method ≠ []) (hm : ∀ c ∈ method, is_token c = true)
    (hu : ∀ c ∈ uri, is_uri cs c = true) (hmaj : is_digit major = true)
    (hmin : is_digit minor = true) (r : Request) :
    runs cs .req_start r (request_line method uri major minor) .req_field_name_start
      { r with method_ := r.method_ ++ method, uri_ := r.uri_ ++ uri,
               version_major_ := major - 48, version_minor_ := minor - 48 } := by
  cases method with
  | nil => exact absurd rfl hne
  | cons c m =>
    have hc : is_token c = true := hm c (List.mem_cons_self c m)
    obtain ⟨h13, -, -, -, -⟩ := is_token_not_special c hc
    have hstart : consume cs .req_start r c =
        some ⟨.req_method, { r with method_ := r.method_ ++ [c] }, .in_progress⟩ := by
      simp [consume, is_cr, h13, hc]
    have hmethod := runs_method cs m (fun x hx => hm x (List.mem_cons_of_mem c hx))
      { r with method_ := r.method_ ++ [c] }
    have hspace : ∀ q : Request, consume cs .req_method q 32 =
        some ⟨.req_uri, q, .in_progress⟩ := by
      intro q
      have : is_token 32 = false := by decide
      simp [consume, this, is_sp]
    have huri := runs_uri cs uri hu
      { r with method_ := r.method_ ++ [c] ++ m }
    have hversion := runs_version cs hsp major minor hmaj hmin
      { r with method_ := r.method_ ++ [c] ++ m, uri_ := r.uri_ ++ uri }
    have h3 := runs_append cs _ _ _ _ _ _ _ _ huri hversion
    have h2 := runs_append cs _ _ _ _ _ _ _ _ hmethod
      (runs_cons cs _ _ _ _ _ _ 32 _ (hspace _) h3)
    have h1 := runs_cons cs _ _ _ _ _ _ c _ hstart h2
    simpa [request_line] using h1

/-- A well-formed request fed from `req_start` and an empty Request: in_progress for
every character of the request line and of the header lines and for the last CR, accept
for the last LF; the Request holds the method, the uri, the version numbers and the
headers, each value without its SP and HT. -/
theorem feed_request_text (cs : CString) (hsp : is_uri cs 32 = false) (method uri : CString)
    (major minor : Int) (headers : List HeaderType)
    (hwf : well_formed cs method uri major minor headers) :
    feed cs .req_start Request.empty (request_text method uri major minor headers) =
      some ⟨.req_header_end,
        { version_major_ := major - 48, version_minor_ := minor - 48,
          headers_ := headers.map (fun h => (h.1, drop_ws h.2)), body_ := [],
          method_ := method, uri_ := uri },
        List.replicate (request_line method uri major minor ++ header_lines headers).length
          .in_progress ++ [.in_progress, .accept]⟩ := by
  obtain ⟨hne, hm, -, hu, hmaj, hmin, hh⟩ := hwf
  have hline := runs_request_line cs hsp method uri major minor hne hm hu hmaj hmin
    Request.empty
  obtain ⟨st2, hst2, hlines⟩ := runs_header_lines cs headers
    (fun h hx => ⟨(hh h hx).1, (hh h hx).2.1, fun c hc => Or.inl ((hh h hx).2.2 c hc)⟩)
    .req_field_name_start _ (Or.inl rfl)
  have hboth := runs_append cs _ _ _ _ _ _ _ _ hline hlines
  unfold runs at hboth
  rw [request_text, ← List.append_assoc, feed_append, hboth]
  simp [feed_end cs st2 hst2, Request.empty]

/-! ## RequestParser: well-formed requests -/

/-- C1, as the code has it: for every well-formed input
`METHOD SP URI SP "HTTP/" d "." d CRLF (name ":" value CRLF)* CRLF` (SP not in the uri
charset), feeding the characters one at a time from `req_start` and an empty Request
leaves method = METHOD, uri = URI, the version numbers equal to the two digits, and the
headers equal to the input's pairs in order and number, each stored value being the text
after the colon with every SP and HT removed (not only the leading ones). -/
theorem well_formed_request_parsed (cs : CString) (hsp : is_uri cs 32 = false)
    (method uri : CString) (major minor : Int) (headers : List HeaderType)
    (hwf : well_formed cs method uri major minor headers) :
    ∃ f, feed cs .req_start Request.empty (request_text method uri major minor headers) =
        some f ∧
      f.request.method_ = method ∧ f.request.uri_ = uri ∧
      f.request.version_major_ = major - 48 ∧ f.request.version_minor_ = minor - 48 ∧
      f.request.headers_ = headers.map (fun h => (h.1, drop_ws h.2)) ∧
      f.request.headers_.length = headers.length :=
  ⟨_, feed_request_text cs hsp method uri major minor headers hwf, rfl, rfl, rfl, rfl, rfl,
    by simp⟩

/-- The test input `"GET /hi HTTP/1.0\r\nHost: 127.0.0.1:8888\r\nUser-Agent: curl/7.43.0\r\n`
`Accept: */*\r\n\r\n"` gives method GET, uri /hi, version 1.0 and the three headers in
order. -/
theorem well_formed_request_parsed_witness :
    is_uri (lit "/hi") 32 = false ∧
    well_formed (lit "/hi") (lit "GET") (lit "/hi") 49 48
      [(lit "Host", lit " 127.0.0.1:8888"), (lit "User-Agent", lit " curl/7.43.0"),
       (lit "Accept", lit " */*")] ∧
    request_text (lit "GET") (lit "/hi") 49 48
      [(lit "Host", lit " 127.0.0.1:8888"), (lit "User-Agent", lit " curl/7.43.0"),
       (lit "Accept", lit " */*")] =
      lit "GET /hi HTTP/1.0\r\nHost: 127.0.0.1:8888\r\nUser-Agent: curl/7.43.0\r\nAccept: */*\r\n\r\n" ∧
    ∃ f, feed (lit "/hi") .req_start Request.empty
        (request_text (lit "GET") (lit "/hi") 49 48
          [(lit "Host", lit " 127.0.0.1:8888"), (lit "User-Agent", lit " curl/7.43.0"),
           (lit "Accept", lit " */*")]) = some f ∧
      f.request.method_ = lit "GET" ∧ f.request.uri_ = lit "/hi" ∧
      f.request.version_major_ = 1 ∧ f.request.version_minor_ = 0 ∧
      f.request.headers_ =
        [(lit "Host", lit "127.0.0.1:8888"), (lit "User-Agent", lit "curl/7.43.0"),
         (lit "Accept", lit "*/*")] ∧
      f.request.headers_.length = 3 :=
  ⟨by decide, by decide, by decide,
   well_formed_request_parsed (lit "/hi") (by decide) (lit "GET") (lit "/hi") 49 48
      [(lit "Host", lit " 127.0.0.1:8888"), (lit "User-Agent", lit " curl/7.43.0"),
       (lit "Accept", lit " */*")] (by decide)⟩

/-- C1 as stated fails: `"GET / HTTP/1.0\r\nAccept: a, b\r\n\r\n"` is well formed, the text
after the colon with leading SP skipped is `a, b`, and the stored value is `a,b`. -/
theorem leading_ws_only_fails :
    ¬ (∀ (cs : CString) (method uri : CString) (major minor : Int)
        (headers : List HeaderType), is_uri cs 32 = false →
        well_formed cs method uri major minor headers →
        ∃ f, feed cs .req_start Request.empty
            (request_text method uri major minor headers) = some f ∧
          f.request.method_ = method ∧ f.request.uri_ = uri ∧
          f.request.version_major_ = major - 48 ∧ f.request.version_minor_ = minor - 48 ∧
          f.request.headers_ = headers.map (fun h => (h.1, skip_leading_ws h.2))) := by
  intro hall
  obtain ⟨f, hf, -, -, -, -, hh⟩ := hall (lit "/") (lit "GET") (lit "/") 49 48
    [(lit "Accept", lit " a, b")] (by decide) (by decide)
  have hcode : feed (lit "/") .req_start Request.empty
      (request_text (lit "GET") (lit "/") 49 48 [(lit "Accept", lit " a, b")]) =
      some ⟨.req_header_end,
        { version_major_ := 1, version_minor_ := 0, headers_ := [(lit "Accept", lit "a,b")],
          body_ := [], method_ := lit "GET", uri_ := lit "/" },
        List.replicate 31 .in_progress ++ [.accept]⟩ := by decide
  rw [hcode] at hf
  cases hf
  revert hh
  decide

/-- C2: for every well-formed input
`METHOD SP URI SP "HTTP/" d "." d CRLF (name ":" value CRLF)* CRLF` (SP not in the uri
charset) fed one character at a time from `req_start` and an empty Request, `consume`
returns in_progress for every character before the last and accept for the last one;
accept is returned exactly once and reject never. -/
theorem well_formed_request_accepted (cs : CString) (hsp : is_uri cs 32 = false)
    (method uri : CString) (major minor : Int) (headers : List HeaderType)
    (hwf : well_formed cs method uri major minor headers) :
    ∃ f, feed cs .req_start Request.empty (request_text method uri major minor headers) =
        some f ∧
      f.statuses =
        List.replicate ((request_text method uri major minor headers).length - 1)
          .in_progress ++ [.accept] ∧
      f.statuses.length = (request_text method uri major minor headers).length ∧
      f.statuses.count .accept = 1 ∧ .reject ∉ f.statuses := by
  have hlen : (request_text method uri major minor headers).length - 1 =
      (request_line method uri major minor ++ header_lines headers).length + 1 := by
    simp [request_text]
    omega
  have hst : List.replicate
      (request_line method uri major minor ++ header_lines headers).length
        ParseStatus.in_progress ++ [.in_progress, .accept] =
      List.replicate ((request_text method uri major minor headers).length - 1)
        .in_progress ++ [.accept] := by
    rw [hlen, List.replicate_succ']
    simp
  refine ⟨_, feed_request_text cs hsp method uri major minor headers hwf, hst, ?_, ?_, ?_⟩
  · simp [request_text]
    omega
  · simp [List.count_replicate]
  · simp [List.mem_replicate]

/-- The test input, 80 characters, is accepted at its last character. -/
theorem well_formed_request_accepted_witness :
    is_uri (lit "/hi") 32 = false ∧
    well_formed (lit "/hi") (lit "GET") (lit "/hi") 49 48
      [(lit "Host", lit " 127.0.0.1:8888"), (lit "User-Agent", lit " curl/7.43.0"),
       (lit "Accept", lit " */*")] ∧
    (request_text (lit "GET") (lit "/hi") 49 48
      [(lit "Host", lit " 127.0.0.1:8888"), (lit "User-Agent", lit " curl/7.43.0"),
       (lit "Accept", lit " */*")]).length = 80 ∧
    ∃ f, feed (lit "/hi") .req_start Request.empty
        (request_text (lit "GET") (lit "/hi") 49 48
          [(lit "Host", lit " 127.0.0.1:8888"), (lit "User-Agent", lit " curl/7.43.0"),
           (lit "Accept", lit " */*")]) = some f ∧
      f.statuses =
        List.replicate ((request_text (lit "GET") (lit "/hi") 49 48
          [(lit "Host", lit " 127.0.0.1:8888"), (lit "User-Agent", lit " curl/7.43.0"),
           (lit "Accept", lit " */*")]).length - 1) .in_progress ++ [.accept] ∧
      f.statuses.length = (request_text (lit "GET") (lit "/hi") 49 48
          [(lit "Host", lit " 127.0.0.1:8888"), (lit "User-Agent", lit " curl/7.43.0"),
           (lit "Accept", lit " */*")]).length ∧
      f.statuses.count .accept = 1 ∧ .reject ∉ f.statuses :=
  ⟨by decide, by decide, by decide,
   well_formed_request_accepted (lit "/hi") (by decide) (lit "GET") (lit "/hi") 49 48
      [(lit "Host", lit " 127.0.0.1:8888"), (lit "User-Agent", lit " curl/7.43.0"),
       (lit "Accept", lit " */*")] (by decide)⟩

/-! ## RequestParser: header folding -/

theorem drop_ws_of_no_ws (text : CString) (h : ∀ x ∈ text, x ≠ 32 ∧ x ≠ 9) :
    drop_ws text = text := by
  induction text with
  | nil => rfl
  | cons c text ih =>
    obtain ⟨h32, h9⟩ := h c (List.mem_cons_self c text)
    rw [drop_ws_cons_other c text h32 h9, ih (fun x hx => h x (List.mem_cons_of_mem c hx))]

/-- C4: header folding. For every Request whose header list is non-empty, its last
header being `(name, value)`, and the parser in `req_header_lws`: SP or HT returns
in_progress, moves to `req_field_value` and leaves the Request (so the header count) as it
is; the non-control, non-whitespace characters `text` fed in `req_field_value` are
appended to the value of that last header; so a header line followed by CRLF SP `text` or
CRLF HT `text` leaves one header `(name, value ++ text)` in the same place and the header
count unchanged. -/
theorem header_folding (cs : CString) (request : Request) (init : List HeaderType)
    (name value : CString) (hlast : request.headers_ = init ++ [(name, value)])
    (c : Int) (hc : c = 32 ∨ c = 9) (text : CString)
    (ht : ∀ x ∈ text, is_ctl x = false ∧ x ≠ 32 ∧ x ≠ 9) :
    consume cs .req_header_lws request c =
      some ⟨.req_field_value, request, .in_progress⟩ ∧
    feed cs .req_field_value request text =
      some ⟨.req_field_value, { request with headers_ := init ++ [(name, value ++ text)] },
        List.replicate text.length .in_progress⟩ ∧
    feed cs .req_field_value request (13 :: 10 :: c :: text) =
      some ⟨.req_field_value, { request with headers_ := init ++ [(name, value ++ text)] },
        List.replicate (text.length + 3) .in_progress⟩ ∧
    (init ++ [(name, value ++ text)]).length = request.headers_.length := by
  have hfold : consume cs .req_header_lws request c =
      some ⟨.req_field_value, request, .in_progress⟩ := by
    rcases hc with rfl | rfl <;> simp [consume, is_sp, is_ht]
  have hcr : consume cs .req_field_value request 13 =
      some ⟨.req_header_lf, request, .in_progress⟩ := by
    simp [consume, is_sp, is_ht, is_cr]
  have hlf : consume cs .req_header_lf request 10 =
      some ⟨.req_header_lws, request, .in_progress⟩ := by
    simp [consume, is_lf]
  have htext := runs_value cs text (fun x hx => Or.inl (ht x hx).1) request init name value
    hlast
  rw [drop_ws_of_no_ws text (fun x hx => (ht x hx).2)] at htext
  have hline := runs_cons cs _ _ _ _ _ _ 13 _ hcr
    (runs_cons cs _ _ _ _ _ _ 10 _ hlf (runs_cons cs _ _ _ _ _ _ c _ hfold htext))
  refine ⟨hfold, htext, ?_, by simp [hlast]⟩
  simpa [runs] using hline

/-- The header `A: b` continued by the line ` c`: one header `(A, bc)`; and the whole
request `"GET / HTTP/1.0\r\nA: b\r\n c\r\n\r\n"`. -/
theorem header_folding_witness :
    consume (lit "/") .req_header_lws
        { Request.empty with headers_ := [(lit "A", lit "b")] } 32 =
      some ⟨.req_field_value, { Request.empty with headers_ := [(lit "A", lit "b")] },
        .in_progress⟩ ∧
    feed (lit "/") .req_field_value { Request.empty with headers_ := [(lit "A", lit "b")] }
        (13 :: 10 :: 32 :: lit "c") =
      some ⟨.req_field_value, { Request.empty with headers_ := [] ++ [(lit "A", lit "b" ++ lit "c")] },
        List.replicate ((lit "c").length + 3) .in_progress⟩ ∧
    feed (lit "/") .req_start Request.empty (lit "GET / HTTP/1.0\r\nA: b\r\n c\r\n\r\n") =
      some ⟨.req_header_end,
        { version_major_ := 1, version_minor_ := 0, headers_ := [(lit "A", lit "bc")],
          body_ := [], method_ := lit "GET", uri_ := lit "/" },
        List.replicate 27 .in_progress ++ [.accept]⟩ :=
  ⟨(header_folding (lit "/") { Request.empty with headers_ := [(lit "A", lit "b")] } []
      (lit "A") (lit "b") rfl 32 (Or.inl rfl) (lit "c") (by decide)).1,
   (header_folding (lit "/") { Request.empty with headers_ := [(lit "A", lit "b")] } []
      (lit "A") (lit "b") rfl 32 (Or.inl rfl) (lit "c") (by decide)).2.2.1,
   by decide⟩

/-! ## RequestParser: the precondition of build_header_name and build_header_value -/

/-- C10 fails on the code: after a request line, a header line that starts with a colon
takes the parser to `req_field_value` with no header created (`req_field_name_start`
falls through into `req_field_name`), and the next character calls `build_header_value`
on an empty header list: the `assert` fails. -/
theorem build_header_value_assert_fails (cs : CString) (h47 : is_uri cs 47 = true)
    (h32 : is_uri cs 32 = false) :
    consume cs .req_field_name_start
        { version_major_ := 1, version_minor_ := 0, headers_ := [], body_ := [],
          method_ := lit "GET", uri_ := lit "/" } 58 =
      some ⟨.req_field_value,
        { version_major_ := 1, version_minor_ := 0, headers_ := [], body_ := [],
          method_ := lit "GET", uri_ := lit "/" }, .in_progress⟩ ∧
    feed cs .req_start Request.empty (lit "GET / HTTP/1.0\r\n:") =
      some ⟨.req_field_value,
        { version_major_ := 1, version_minor_ := 0, headers_ := [], body_ := [],
          method_ := lit "GET", uri_ := lit "/" },
        List.replicate 17 .in_progress⟩ ∧
    consume cs .req_field_value
        { version_major_ := 1, version_minor_ := 0, headers_ := [], body_ := [],
          method_ := lit "GET", uri_ := lit "/" } 120 = none ∧
    feed cs .req_start Request.empty (lit "GET / HTTP/1.0\r\n:x") = none := by
  have hline := runs_request_line cs h32 [71, 69, 84] [47] 49 48 (by decide) (by decide)
    (by simpa using h47) (by decide) (by decide) Request.empty
  have hcolon : consume cs .req_field_name_start
      { version_major_ := 1, version_minor_ := 0, headers_ := [], body_ := [],
        method_ := [71, 69, 84], uri_ := [47] } 58 =
      some ⟨.req_field_value,
        { version_major_ := 1, version_minor_ := 0, headers_ := [], body_ := [],
          method_ := [71, 69, 84], uri_ := [47] }, .in_progress⟩ := by
    have h1 : is_token 58 = false := by decide
    simp [consume, consume_req_field_name, is_cr, h1]
  have hx : consume cs .req_field_value
      { version_major_ := 1, version_minor_ := 0, headers_ := [], body_ := [],
        method_ := [71, 69, 84], uri_ := [47] } 120 = none := by
    have h1 : is_ctl 120 = false := by decide
    simp [consume, is_sp, is_ht, is_cr, h1, Request.build_header_value,
      Message.build_header_value]
  have hpre := runs_append cs _ _ _ _ _ _ _ [58] hline
    (runs_cons cs _ _ _ _ _ _ 58 [] hcolon (runs_nil cs _ _))
  have e1 : lit "GET / HTTP/1.0\r\n:" = request_line [71, 69, 84] [47] 49 48 ++ [58] := by
    decide
  have e2 : lit "GET / HTTP/1.0\r\n:x" =
      (request_line [71, 69, 84] [47] 49 48 ++ [58]) ++ [120] := by decide
  have e3 : lit "GET" = [71, 69, 84] := by decide
  have e4 : lit "/" = [47] := by decide
  unfold runs at hpre
  rw [e1, e2, e3, e4]
  refine ⟨hcolon, ?_, hx, ?_⟩
  · rw [hpre]
    rfl
  · rw [feed_append, hpre]
    simp [feed_cons, hx]

/-- With the uri charset `/hi`: `"GET / HTTP/1.0\r\n:x"` fails the `assert`. -/
theorem build_header_value_assert_fails_witness :
    is_uri (lit "/hi") 47 = true ∧ is_uri (lit "/hi") 32 = false ∧
    feed (lit "/hi") .req_start Request.empty (lit "GET / HTTP/1.0\r\n:x") = none :=
  ⟨by decide, by decide,
   (build_header_value_assert_fails (lit "/hi") (by decide) (by decide)).2.2.2⟩

/-! ## Message: build_header_name and build_header_value -/

/-- C11: for every Message whose header list is non-empty, its last header being
`(a, b)` after the headers `init`, and every character `c`: `build_header_name(c)`
returns with `c` appended to the name of the last header and nothing else changed (the
value of the last header, the earlier headers, the header count, the version numbers and
the body); `build_header_value(c)` likewise appends `c` to the value of the last header
and changes nothing else. -/
theorem build_header_appends (m : Message) (init : List HeaderType) (a b : CString)
    (c : Int) (h : m.headers_ = init ++ [(a, b)]) :
    m.build_header_name c =
      some { version_major_ := m.version_major_, version_minor_ := m.version_minor_,
             headers_ := init ++ [(a ++ [c], b)], body_ := m.body_ } ∧
    m.build_header_value c =
      some { version_major_ := m.version_major_, version_minor_ := m.version_minor_,
             headers_ := init ++ [(a, b ++ [c])], body_ := m.body_ } ∧
    (init ++ [(a ++ [c], b)]).length = m.headers_.length ∧
    (init ++ [(a, b ++ [c])]).length = m.headers_.length := by
  refine ⟨?_, ?_, by simp [h], by simp [h]⟩
  · simp [Message.build_header_name, h, modify_back_concat]
  · simp [Message.build_header_value, h, modify_back_concat]

/-- The test of `build_header_name`: on one empty header, building k, e, y and then
v, a, l, u, e gives the single header (key, value). -/
theorem build_header_appends_witness :
    (⟨1, 1, [(lit "ke", lit "")], lit "body"⟩ : Message).build_header_name 121 =
      some ⟨1, 1, [] ++ [(lit "ke" ++ [121], lit "")], lit "body"⟩ ∧
    ((((((((some (⟨1, 1, [([], [])], []⟩ : Message)).bind
      (fun m => m.build_header_name 107)).bind
      (fun m => m.build_header_name 101)).bind
      (fun m => m.build_header_name 121)).bind
      (fun m => m.build_header_value 118)).bind
      (fun m => m.build_header_value 97)).bind
      (fun m => m.build_header_value 108)).bind
      (fun m => m.build_header_value 117)).bind
      (fun m => m.build_header_value 101) =
      some ⟨1, 1, [(lit "key", lit "value")], []⟩ :=
  ⟨(build_header_appends ⟨1, 1, [(lit "ke", lit "")], lit "body"⟩ [] (lit "ke") (lit "") 121
      rfl).1,
   by decide⟩

/-! ## Message: header_unset after header_set -/

theorem filter_header_set (n v : CString) (h : List HeaderType) :
    (header_set n v h).filter (fun x => !(x.1 == n)) = h.filter (fun x => !(x.1 == n)) := by
  induction h with
  | nil => simp [header_set_nil]
  | cons x xs ih =>
    rw [header_set_cons]
    by_cases hx : x.1 = n
    · simp [hx]
    · simp [hx, ih]

/-- C20: `header_unset` cancels a preceding `header_set` of the same name:
`header_unset(n)` applied to the result of `header_set(n, v)` on `h` gives the header list
of `header_unset(n)` applied to `h`; and `header_unset` is idempotent. -/
theorem header_unset_after_header_set (n v : CString) (h : List HeaderType) :
    header_unset n (header_set n v h) = header_unset n h ∧
    header_unset n (header_unset n h) = header_unset n h := by
  refine ⟨?_, ?_⟩
  · rw [header_unset_eq_filter, header_unset_eq_filter, filter_header_set]
  · rw [header_unset_eq_filter, header_unset_eq_filter, List.filter_filter]
    simp

/-! ## RequestParser: token characters -/

/-- C15: `is_token` classifies exactly the token characters of RFC 2616. For every
`char` value `c`, also outside 0..127: `is_token(c)` is true if and only if `c` is in
0x21..0x7E and is not one of the 19 separators; it is false for every control character
(0x00-0x1F, 0x7F), every separator and every non-ASCII value; and `is_separator` is
membership in the 19 separators. -/
theorem is_token_iff (c : Int) :
    (is_token c = true ↔ (33 ≤ c ∧ c ≤ 126 ∧ c ∉ rfc2616_separators)) ∧
    (((0 ≤ c ∧ c ≤ 31) ∨ c = 127) → is_token c = false) ∧
    (c ∈ rfc2616_separators → is_token c = false) ∧
    ((c < 0 ∨ 127 < c) → is_token c = false) ∧
    (is_separator c = true ↔ c ∈ rfc2616_separators) := by
  have hsep : is_separator c = true ↔ c ∈ rfc2616_separators := by
    simp only [is_separator, rfc2616_separators, Bool.or_eq_true, beq_iff_eq, List.mem_cons,
      List.mem_singleton, List.not_mem_nil, or_false, or_assoc]
  have hsepf : is_separator c = false ↔ c ∉ rfc2616_separators := by
    rw [← hsep]
    simp
  have htok : is_token c = true ↔ (33 ≤ c ∧ c ≤ 126 ∧ c ∉ rfc2616_separators) := by
    constructor
    · intro h
      simp only [is_token, Bool.and_eq_true, Bool.not_eq_true'] at h
      obtain ⟨⟨hctl, hs⟩, hchar⟩ := h
      have hns := hsepf.mp hs
      refine ⟨?_, ?_, hns⟩
      · have h32 : c ≠ 32 := by
          intro e
          exact hns (by simp [rfc2616_separators, e])
        simp only [is_ctl, is_char, Bool.or_eq_false_iff, Bool.and_eq_false_imp,
          Bool.and_eq_true, decide_eq_true_eq, decide_eq_false_iff_not,
          beq_eq_false_iff_ne, ne_eq] at hctl hchar
        omega
      · simp only [is_ctl, is_char, Bool.or_eq_false_iff, Bool.and_eq_false_imp,
          Bool.and_eq_true, decide_eq_true_eq, decide_eq_false_iff_not,
          beq_eq_false_iff_ne, ne_eq] at hctl hchar
        omega
    · rintro ⟨h1, h2, hns⟩
      have hs := hsepf.mpr hns
      simp only [is_token, hs, Bool.and_eq_true, Bool.not_eq_true', Bool.not_false, and_true]
      simp only [is_ctl, is_char, Bool.or_eq_false_iff, Bool.and_eq_false_imp,
        Bool.and_eq_true, decide_eq_true_eq, decide_eq_false_iff_not,
        beq_eq_false_iff_ne, ne_eq]
      omega
  have hfalse : ∀ P : Prop, (P → ¬ (33 ≤ c ∧ c ≤ 126 ∧ c ∉ rfc2616_separators)) →
      P → is_token c = false := by
    intro P hP hp
    cases ht : is_token c with
    | false => rfl
    | true => exact absurd (htok.mp ht) (hP hp)
  refine ⟨htok, ?_, ?_, ?_, hsep⟩
  · exact hfalse _ (by omega)
  · exact hfalse _ (fun hm h => h.2.2 hm)
  · exact hfalse _ (by omega)

/-! ## RequestParser: state by state -/

/-- C12 fails on the code at the colon: in `req_field_name_start` a colon, which is
neither CR nor a token character, is answered in_progress and moves the parser to
`req_field_value` (the case falls through into `req_field_name`). SP, HT and every other
character that is neither CR, a token character nor the colon are rejected. -/
theorem field_name_start_colon_in_progress (cs : CString) (r : Request) :
    is_cr 58 = false ∧ is_token 58 = false ∧
    consume cs .req_field_name_start r 58 = some ⟨.req_field_value, r, .in_progress⟩ ∧
    consume cs .req_field_name_start r 32 = some ⟨.req_field_name_start, r, .reject⟩ ∧
    consume cs .req_field_name_start r 9 = some ⟨.req_field_name_start, r, .reject⟩ ∧
    (∀ c : Int, is_cr c = false → is_token c = false → c ≠ 58 →
      consume cs .req_field_name_start r c = some ⟨.req_field_name_start, r, .reject⟩) := by
  have h1 : is_token 58 = false := by decide
  have h2 : is_token 32 = false := by decide
  have h3 : is_token 9 = false := by decide
  refine ⟨by decide, h1, ?_, ?_, ?_, ?_⟩
  · simp [consume, consume_req_field_name, is_cr, h1]
  · simp [consume, consume_req_field_name, is_cr, h2]
  · simp [consume, consume_req_field_name, is_cr, h3]
  · intro c hcr htok hc
    simp [consume, consume_req_field_name, hcr, htok, hc]

/-- A call of `consume` that returns accept was made in `req_header_end` with LF and
leaves `state_` and the request as they were. -/
theorem consume_accept_unchanged (cs : CString) (st : State) (r : Request) (c : Int)
    (res : Consumed) (h : consume cs st r c = some res) (hs : res.status = .accept) :
    st = .req_header_end ∧ c = 10 ∧ res = ⟨.req_header_end, r, .accept⟩ := by
  cases st <;> simp only [consume, consume_req_field_name] at h <;>
    (try split_ifs at h) <;>
    first
    | (cases h; simp at hs; done)
    | (simp only [Option.map_eq_some'] at h
       obtain ⟨q, -, hq⟩ := h
       subst hq
       simp at hs)
    | (cases h
       refine ⟨rfl, ?_, rfl⟩
       simp_all [is_lf])

/-- C17: `consume` changes the parser state only when it returns in_progress: for every
state, Request and character, if `consume` returns reject or accept, the state after the
call is the state before it. An accept is returned in `req_header_end`, which stays, and
a further LF is answered with accept again. -/
theorem consume_state_kept_unless_in_progress (cs : CString) (st : State) (r : Request)
    (c : Int) (res : Consumed) (h : consume cs st r c = some res)
    (hs : res.status = .reject ∨ res.status = .accept) :
    res.state_ = st ∧
    (res.status = .accept →
      res.state_ = .req_header_end ∧
      consume cs res.state_ res.request 10 = some ⟨.req_header_end, res.request, .accept⟩) := by
  rcases hs with hs | hs
  · have hres := consume_reject_unchanged cs st r c res h hs
    subst hres
    exact ⟨rfl, fun ha => by simp at ha⟩
  · obtain ⟨hst, hc, hres⟩ := consume_accept_unchanged cs st r c res h hs
    subst hres hst hc
    exact ⟨rfl, fun _ => ⟨rfl, h⟩⟩

/-- The end of the headers: in `req_header_end` LF is answered accept, twice in a row; a
letter there is answered reject and the state stays. -/
theorem consume_state_kept_unless_in_progress_witness :
    consume [] .req_header_end Request.empty 10 =
      some ⟨.req_header_end, Request.empty, .accept⟩ ∧
    (⟨.req_header_end, Request.empty, .accept⟩ : Consumed).state_ = .req_header_end ∧
    consume [] .req_header_end Request.empty 10 =
      some ⟨.req_header_end, Request.empty, .accept⟩ ∧
    consume [] .req_header_end Request.empty 120 =
      some ⟨.req_header_end, Request.empty, .reject⟩ ∧
    (⟨.req_header_end, Request.empty, .reject⟩ : Consumed).state_ = .req_header_end :=
  ⟨by decide,
   (consume_state_kept_unless_in_progress [] .req_header_end Request.empty 10
      ⟨.req_header_end, Request.empty, .accept⟩ (by decide) (Or.inr rfl)).1,
   ((consume_state_kept_unless_in_progress [] .req_header_end Request.empty 10
      ⟨.req_header_end, Request.empty, .accept⟩ (by decide) (Or.inr rfl)).2 rfl).2,
   by decide,
   (consume_state_kept_unless_in_progress [] .req_header_end Request.empty 120
      ⟨.req_header_end, Request.empty, .reject⟩ (by decide) (Or.inl rfl)).1⟩

theorem build_header_name_frame (r q : Request) (c : Int)
    (h : r.build_header_name c = some q) :
    q.method_ = r.method_ ∧ q.uri_ = r.uri_ ∧ q.version_major_ = r.version_major_ ∧
    q.version_minor_ = r.version_minor_ ∧ q.body_ = r.body_ := by
  simp only [Request.build_header_name, Message.build_header_name, Option.map_eq_some'] at h
  obtain ⟨m, hm, rfl⟩ := h
  split_ifs at hm
  cases hm
  exact ⟨rfl, rfl, rfl, rfl, rfl⟩

theorem build_header_value_frame (r q : Request) (c : Int)
    (h : r.build_header_value c = some q) :
    q.method_ = r.method_ ∧ q.uri_ = r.uri_ ∧ q.version_major_ = r.version_major_ ∧
    q.version_minor_ = r.version_minor_ ∧ q.body_ = r.body_ := by
  simp only [Request.build_header_value, Message.build_header_value, Option.map_eq_some'] at h
  obtain ⟨m, hm, rfl⟩ := h
  split_ifs at hm
  cases hm
  exact ⟨rfl, rfl, rfl, rfl, rfl⟩

theorem build_header_name_some (r : Request) (c : Int) (h : r.headers_ ≠ []) :
    ∃ q, r.build_header_name c = some q := by
  simp [Request.build_header_name, Message.build_header_name, h]

theorem build_header_value_some (r : Request) (c : Int) (h : r.headers_ ≠ []) :
    ∃ q, r.build_header_value c = some q := by
  simp [Request.build_header_value, Message.build_header_value, h]

/-- C19: the request line is frozen once it has been parsed, and the parser never resets
itself. From any of the header states, for every Request and every character, a call of
`consume` leaves method, uri, version_major and version_minor as they were, and the state
after the call is again a header state. The call returns whenever the header list is
non-empty. -/
theorem request_line_frozen (cs : CString) (st : State) (r : Request) (c : Int)
    (hst : is_header_state st = true) :
    (r.headers_ ≠ [] → ∃ res, consume cs st r c = some res) ∧
    ∀ res, consume cs st r c = some res →
      res.request.method_ = r.method_ ∧ res.request.uri_ = r.uri_ ∧
      res.request.version_major_ = r.version_major_ ∧
      res.request.version_minor_ = r.version_minor_ ∧
      is_header_state res.state_ = true := by
  have hemp : r.emplace_back.headers_ ≠ [] := by simp [Request.emplace_back]
  constructor
  · intro hne
    obtain ⟨q1, hq1⟩ := build_header_name_some r c hne
    obtain ⟨q2, hq2⟩ := build_header_value_some r c hne
    obtain ⟨q3, hq3⟩ := build_header_name_some r.emplace_back c hemp
    cases st <;> simp [is_header_state] at hst <;>
      simp only [consume, consume_req_field_name, hq1, hq2, hq3, Option.map_some'] <;>
      split_ifs <;> exact ⟨_, rfl⟩
  · intro res h
    cases st <;> simp [is_header_state] at hst <;>
      simp only [consume, consume_req_field_name] at h <;>
      split_ifs at h <;>
      first
      | (cases h; exact ⟨rfl, rfl, rfl, rfl, rfl⟩)
      | (simp only [Option.map_eq_some'] at h
         obtain ⟨q, hq, rfl⟩ := h
         first
         | exact (fun k => ⟨k.1, k.2.1, k.2.2.1, k.2.2.2.1, rfl⟩)
             (build_header_value_frame _ _ _ hq)
         | exact (fun k => ⟨k.1, k.2.1, k.2.2.1, k.2.2.2.1, rfl⟩)
             (build_header_name_frame _ _ _ hq))

/-- In `req_header_lws` with one header, a token character opens a second header and the
request line stays; the call returns. -/
theorem request_line_frozen_witness :
    is_header_state .req_header_lws = true ∧
    (∃ res, consume [] .req_header_lws
      { version_major_ := 1, version_minor_ := 0, headers_ := [(lit "A", lit "b")],
        body_ := [], method_ := lit "GET", uri_ := lit "/" } 66 = some res) ∧
    (∀ res, consume [] .req_header_lws
      { version_major_ := 1, version_minor_ := 0, headers_ := [(lit "A", lit "b")],
        body_ := [], method_ := lit "GET", uri_ := lit "/" } 66 = some res →
      res.request.method_ = lit "GET" ∧ res.request.uri_ = lit "/" ∧
      res.request.version_major_ = 1 ∧ res.request.version_minor_ = 0 ∧
      is_header_state res.state_ = true) :=
  ⟨rfl,
   (request_line_frozen [] .req_header_lws
      { version_major_ := 1, version_minor_ := 0, headers_ := [(lit "A", lit "b")],
        body_ := [], method_ := lit "GET", uri_ := lit "/" } 66 rfl).1 (by decide),
   (request_line_frozen [] .req_header_lws
      { version_major_ := 1, version_minor_ := 0, headers_ := [(lit "A", lit "b")],
        body_ := [], method_ := lit "GET", uri_ := lit "/" } 66 rfl).2⟩

/-! ## RequestParser: the header value state -/

theorem is_ctl_iff (c : Int) : is_ctl c = true ↔ ((0 ≤ c ∧ c ≤ 31) ∨ c = 127) := by
  simp [is_ctl]

/-- The steps of `req_field_value`, for every character `c`: reject if and only if `c` is
a control character (0x00-0x1F or 0x7F) other than HT and CR; SP and HT return in_progress
and leave state and Request as they were; CR returns in_progress and moves to
`req_header_lf` without changing the Request; every other character, the last header
being `(a, b)`, returns in_progress, is appended to its value and leaves the state as it
was. -/
theorem field_value_steps (cs : CString) (r : Request) (c : Int) :
    ((∃ res, consume cs .req_field_value r c = some res ∧ res.status = .reject) ↔
      (((0 ≤ c ∧ c ≤ 31) ∨ c = 127) ∧ c ≠ 9 ∧ c ≠ 13)) ∧
    ((c = 32 ∨ c = 9) →
      consume cs .req_field_value r c = some ⟨.req_field_value, r, .in_progress⟩) ∧
    (c = 13 → consume cs .req_field_value r c = some ⟨.req_header_lf, r, .in_progress⟩) ∧
    (∀ init a b, r.headers_ = init ++ [(a, b)] →
      ¬ ((0 ≤ c ∧ c ≤ 31) ∨ c = 127) → c ≠ 32 →
      consume cs .req_field_value r c =
        some ⟨.req_field_value, { r with headers_ := init ++ [(a, b ++ [c])] },
          .in_progress⟩) := by
  have hws : (c = 32 ∨ c = 9) →
      consume cs .req_field_value r c = some ⟨.req_field_value, r, .in_progress⟩ := by
    rintro (rfl | rfl) <;> simp [consume, is_sp, is_ht]
  have hcr : c = 13 →
      consume cs .req_field_value r c = some ⟨.req_header_lf, r, .in_progress⟩ := by
    rintro rfl
    simp [consume, is_sp, is_ht, is_cr]
  refine ⟨?_, hws, hcr, ?_⟩
  · constructor
    · rintro ⟨res, hres, hs⟩
      by_cases h1 : c = 32 ∨ c = 9
      · rw [hws h1] at hres
        cases hres
        simp at hs
      · by_cases h2 : c = 13
        · rw [hcr h2] at hres
          cases hres
          simp at hs
        · have h32 : c ≠ 32 := fun e => h1 (Or.inl e)
          have h9 : c ≠ 9 := fun e => h1 (Or.inr e)
          refine ⟨?_, h9, h2⟩
          by_contra hctl
          have hf : is_ctl c = false := by
            cases hc : is_ctl c with
            | false => rfl
            | true => exact absurd ((is_ctl_iff c).mp hc) hctl
          simp [consume, is_sp, is_ht, is_cr, h32, h9, h2, hf] at hres
          obtain ⟨q, -, rfl⟩ := hres
          simp at hs
    · rintro ⟨hctl, h9, h13⟩
      have h32 : c ≠ 32 := by omega
      have ht : is_ctl c = true := (is_ctl_iff c).mpr hctl
      exact ⟨⟨.req_field_value, r, .reject⟩,
        by simp [consume, is_sp, is_ht, is_cr, h32, h9, h13, ht], rfl⟩
  · intro init a b hlast hctl h32
    have hf : is_ctl c = false := by
      cases hc : is_ctl c with
      | false => rfl
      | true => exact absurd ((is_ctl_iff c).mp hc) hctl
    obtain ⟨h13, -, h9⟩ := not_ctl_not_special c hf
    simp [consume, is_sp, is_ht, is_cr, h32, h9, h13, hf,
      build_header_value_last r init a b c hlast]

/-- After the request line `GET / HTTP/1.0`, a colon takes the parser to
`req_field_value` with no header created. -/
theorem feed_colon_after_request_line (cs : CString) (h47 : is_uri cs 47 = true)
    (h32 : is_uri cs 32 = false) :
    feed cs .req_start Request.empty (lit "GET / HTTP/1.0\r\n:") =
      some ⟨.req_field_value,
        { version_major_ := 1, version_minor_ := 0, headers_ := [], body_ := [],
          method_ := [71, 69, 84], uri_ := [47] },
        List.replicate 17 .in_progress⟩ := by
  have hline := runs_request_line cs h32 [71, 69, 84] [47] 49 48 (by decide) (by decide)
    (by simpa using h47) (by decide) (by decide) Request.empty
  have hcolon : consume cs .req_field_name_start
      { version_major_ := 1, version_minor_ := 0, headers_ := [], body_ := [],
        method_ := [71, 69, 84], uri_ := [47] } 58 =
      some ⟨.req_field_value,
        { version_major_ := 1, version_minor_ := 0, headers_ := [], body_ := [],
          method_ := [71, 69, 84], uri_ := [47] }, .in_progress⟩ := by
    have h1 : is_token 58 = false := by decide
    simp [consume, consume_req_field_name, is_cr, h1]
  have hpre := runs_append cs _ _ _ _ _ _ _ [58] hline
    (runs_cons cs _ _ _ _ _ _ 58 [] hcolon (runs_nil cs _ _))
  have e1 : lit "GET / HTTP/1.0\r\n:" = request_line [71, 69, 84] [47] 49 48 ++ [58] := by
    decide
  unfold runs at hpre
  rw [e1, hpre]
  rfl

/-- C13 fails on the code for a character that is appended: fed `GET / HTTP/1.0` CR LF
and a colon, the parser is in `req_field_value` with no header (the colon fell through
`req_field_name_start`); the letter `x` fed next is not a control character, SP, HT or CR,
and the call does not return in_progress with `x` appended: the `assert` of
`build_header_value` fails. -/
theorem field_value_append_asserts (cs : CString) (h47 : is_uri cs 47 = true)
    (h32 : is_uri cs 32 = false) :
    feed cs .req_start Request.empty (lit "GET / HTTP/1.0\r\n:") =
      some ⟨.req_field_value,
        { version_major_ := 1, version_minor_ := 0, headers_ := [], body_ := [],
          method_ := lit "GET", uri_ := lit "/" },
        List.replicate 17 .in_progress⟩ ∧
    is_ctl 120 = false ∧ is_sp 120 = false ∧ is_ht 120 = false ∧ is_cr 120 = false ∧
    consume cs .req_field_value
        { version_major_ := 1, version_minor_ := 0, headers_ := [], body_ := [],
          method_ := lit "GET", uri_ := lit "/" } 120 = none ∧
    ¬ (∃ q, consume cs .req_field_value
        { version_major_ := 1, version_minor_ := 0, headers_ := [], body_ := [],
          method_ := lit "GET", uri_ := lit "/" } 120 =
        some ⟨.req_field_value, q, .in_progress⟩) := by
  have e3 : lit "GET" = [71, 69, 84] := by decide
  have e4 : lit "/" = [47] := by decide
  have hx : consume cs .req_field_value
      { version_major_ := 1, version_minor_ := 0, headers_ := [], body_ := [],
        method_ := [71, 69, 84], uri_ := [47] } 120 = none := by
    have h1 : is_ctl 120 = false := by decide
    simp [consume, is_sp, is_ht, is_cr, h1, Request.build_header_value,
      Message.build_header_value]
  rw [e3, e4]
  refine ⟨feed_colon_after_request_line cs h47 h32, by decide, by decide, by decide,
    by decide, hx, ?_⟩
  rintro ⟨q, hq⟩
  rw [hx] at hq
  cases hq

/-- With the uri charset `/hi`: after `GET / HTTP/1.0` CR LF and a colon the parser is in
`req_field_value`, and the letter `x` fails the `assert`. -/
theorem field_value_append_asserts_witness :
    is_uri (lit "/hi") 47 = true ∧ is_uri (lit "/hi") 32 = false ∧
    consume (lit "/hi") .req_field_value
        { version_major_ := 1, version_minor_ := 0, headers_ := [], body_ := [],
          method_ := lit "GET", uri_ := lit "/" } 120 = none :=
  ⟨by decide, by decide,
   (field_value_append_asserts (lit "/hi") (by decide) (by decide)).2.2.2.2.2.1⟩

/-- C16: whitespace inside a header value is dropped, not only leading whitespace. For
every Request whose header list is non-empty, its last header being `(name, value)`, and
the parser in `req_field_value`, feeding any string `v` of non-control characters, SP and
HT returns in_progress for every character, stays in `req_field_value` and leaves the
value of the last header equal to `value` followed by `v` with every SP and every HT
removed. -/
theorem value_whitespace_dropped (cs : CString) (request : Request)
    (init : List HeaderType) (name value : CString)
    (hlast : request.headers_ = init ++ [(name, value)]) (v : CString)
    (hv : ∀ c ∈ v, is_ctl c = false ∨ c = 32 ∨ c = 9) :
    feed cs .req_field_value request v =
      some ⟨.req_field_value,
        { request with headers_ :=
            init ++ [(name, value ++ v.filter (fun c => decide (c ≠ 32 ∧ c ≠ 9)))] },
        List.replicate v.length .in_progress⟩ := by
  have hv2 : ∀ c ∈ v, is_ctl c = false ∨ c = 9 := by
    intro c hc
    rcases hv c hc with h | rfl | h
    · exact Or.inl h
    · exact Or.inl (by decide)
    · exact Or.inr h
  have hrun := runs_value cs v hv2 request init name value hlast
  have hdrop : drop_ws v = v.filter (fun c => decide (c ≠ 32 ∧ c ≠ 9)) := by
    unfold drop_ws
    congr 1
    funext c
    by_cases h32 : c = 32 <;> by_cases h9 : c = 9 <;> simp [is_sp, is_ht, h32, h9]
  rw [hdrop] at hrun
  exact hrun

/-- The value `a b` fed after the header name `A` is stored as `ab`. -/
theorem value_whitespace_dropped_witness :
    (∀ c ∈ lit "a b", is_ctl c = false ∨ c = 32 ∨ c = 9) ∧
    feed [] .req_field_value { Request.empty with headers_ := [(lit "A", [])] } (lit "a b") =
      some ⟨.req_field_value, { Request.empty with headers_ := [(lit "A", lit "ab")] },
        List.replicate 3 .in_progress⟩ :=
  ⟨by decide,
   value_whitespace_dropped [] { Request.empty with headers_ := [(lit "A", [])] } []
     (lit "A") [] rfl (lit "a b") (by decide)⟩

/-! ## RequestParser: the literal HTTP/ -/

theorem consume_literal (cs : CString) (st nx : State) (r : Request) (c e : Int)
    (h : literal_next st = some (e, nx)) :
    consume cs st r c =
      some (if c = e then ⟨nx, r, .in_progress⟩ else ⟨st, r, .reject⟩) := by
  cases st <;> simp [literal_next] at h <;> obtain ⟨rfl, rfl⟩ := h <;>
    simp only [consume, beq_iff_eq] <;> split_ifs <;> rfl

theorem literal_next_of_left (st : State) (h : 0 < literal_left st) :
    ∃ e nx, literal_next st = some (e, nx) ∧ literal_left nx + 1 = literal_left st := by
  cases st <;> simp [literal_left] at h <;> exact ⟨_, _, rfl, rfl⟩

/-- While the literal is being matched, every call returns and leaves the Request as it
was. -/
theorem feed_literal_total (cs : CString) (w : CString) :
    ∀ (st : State) (r : Request), w.length ≤ literal_left st →
      ∃ g, feed cs st r w = some g ∧ g.request = r := by
  induction w with
  | nil => intro st r _; exact ⟨_, rfl, rfl⟩
  | cons c w ih =>
    intro st r hlen
    simp only [List.length_cons] at hlen
    obtain ⟨e, nx, hnx, hleft⟩ := literal_next_of_left st (by omega)
    rw [feed_cons, consume_literal cs st nx r c e hnx]
    by_cases hc : c = e
    · obtain ⟨g, hg, hgr⟩ := ih nx r (by omega)
      simp [hc, hg, hgr]
    · obtain ⟨g, hg, hgr⟩ := ih st r (by omega)
      simp [hc, hg, hgr]

theorem feed_literal_match (cs : CString) (st nx : State) (r : Request) (c e : Int)
    (w : CString) (h : literal_next st = some (e, nx)) (hc : c = e) :
    feed cs st r (c :: w) =
      (feed cs nx r w).map (fun f => ⟨f.state_, f.request, .in_progress :: f.statuses⟩) := by
  rw [feed_cons, consume_literal cs st nx r c e h]
  simp [hc]

theorem feed_literal_mismatch (cs : CString) (st nx : State) (r : Request) (c e : Int)
    (w : CString) (h : literal_next st = some (e, nx)) (hc : c ≠ e) :
    feed cs st r (c :: w) =
      (feed cs st r w).map (fun f => ⟨f.state_, f.request, .reject :: f.statuses⟩) := by
  rw [feed_cons, consume_literal cs st nx r c e h]
  simp [hc]

/-- C14: the literal `HTTP/` is matched exactly and case-sensitively. Starting in
`req_http_h`, for every sequence of five characters: `consume` returns in_progress for all
five and ends in `req_http_major` if and only if the sequence is exactly
`H`, `T`, `T`, `P`, `/`; otherwise it returns reject at the first position where the
sequence differs from `HTTP/`, after in_progress for the positions before; and the
Request is the same after every one of the five calls. -/
theorem http_literal_exact (cs : CString) (r : Request) (c1 c2 c3 c4 c5 : Int) :
    ∃ f, feed cs .req_http_h r [c1, c2, c3, c4, c5] = some f ∧ f.request = r ∧
      ((f.statuses = List.replicate 5 .in_progress ∧ f.state_ = .req_http_major) ↔
        [c1, c2, c3, c4, c5] = [72, 84, 84, 80, 47]) ∧
      (c1 ≠ 72 → f.statuses.take 1 = [.reject]) ∧
      (c1 = 72 → c2 ≠ 84 → f.statuses.take 2 = [.in_progress, .reject]) ∧
      (c1 = 72 → c2 = 84 → c3 ≠ 84 →
        f.statuses.take 3 = [.in_progress, .in_progress, .reject]) ∧
      (c1 = 72 → c2 = 84 → c3 = 84 → c4 ≠ 80 →
        f.statuses.take 4 = [.in_progress, .in_progress, .in_progress, .reject]) ∧
      (c1 = 72 → c2 = 84 → c3 = 84 → c4 = 80 → c5 ≠ 47 →
        f.statuses = [.in_progress, .in_progress, .in_progress, .in_progress, .reject]) ∧
      ∀ n, ∃ g, feed cs .req_http_h r (List.take n [c1, c2, c3, c4, c5]) = some g ∧
        g.request = r := by
  have hthrough : ∀ n, ∃ g, feed cs .req_http_h r (List.take n [c1, c2, c3, c4, c5]) =
      some g ∧ g.request = r := by
    intro n
    refine feed_literal_total cs _ .req_http_h r ?_
    simp [literal_left]
  by_cases h1 : c1 = 72
  · rw [feed_literal_match cs .req_http_h .req_http_ht r c1 72 _ rfl h1]
    by_cases h2 : c2 = 84
    · rw [feed_literal_match cs .req_http_ht .req_http_htt r c2 84 _ rfl h2]
      by_cases h3 : c3 = 84
      · rw [feed_literal_match cs .req_http_htt .req_http_http r c3 84 _ rfl h3]
        by_cases h4 : c4 = 80
        · rw [feed_literal_match cs .req_http_http .req_http_slash r c4 80 _ rfl h4]
          by_cases h5 : c5 = 47
          · rw [feed_literal_match cs .req_http_slash .req_http_major r c5 47 _ rfl h5]
            exact ⟨_, rfl, rfl, by simp [h1, h2, h3, h4, h5, List.replicate],
              by simp [h1], by simp [h2], by simp [h3], by simp [h4], by simp [h5], hthrough⟩
          · rw [feed_literal_mismatch cs .req_http_slash .req_http_major r c5 47 _ rfl h5]
            exact ⟨_, rfl, rfl, by simp [h5, List.replicate],
              by simp [h1], by simp [h2], by simp [h3], by simp [h4], by simp, hthrough⟩
        · rw [feed_literal_mismatch cs .req_http_http .req_http_slash r c4 80 _ rfl h4]
          obtain ⟨g, hg, hgr⟩ := feed_literal_total cs [c5] .req_http_http r
            (by simp [literal_left])
          rw [hg]
          exact ⟨_, rfl, hgr, by simp [h4, List.replicate],
            by simp [h1], by simp [h2], by simp [h3], by simp, by simp [h4], hthrough⟩
      · rw [feed_literal_mismatch cs .req_http_htt .req_http_http r c3 84 _ rfl h3]
        obtain ⟨g, hg, hgr⟩ := feed_literal_total cs [c4, c5] .req_http_htt r
          (by simp [literal_left])
        rw [hg]
        exact ⟨_, rfl, hgr, by simp [h3, List.replicate],
          by simp [h1], by simp [h2], by simp, by simp [h3], by simp [h3], hthrough⟩
    · rw [feed_literal_mismatch cs .req_http_ht .req_http_htt r c2 84 _ rfl h2]
      obtain ⟨g, hg, hgr⟩ := feed_literal_total cs [c3, c4, c5] .req_http_ht r
        (by simp [literal_left])
      rw [hg]
      exact ⟨_, rfl, hgr, by simp [h2, List.replicate],
        by simp [h1], by simp, by simp [h2], by simp [h2], by simp [h2], hthrough⟩
  · rw [feed_literal_mismatch cs .req_http_h .req_http_ht r c1 72 _ rfl h1]
    obtain ⟨g, hg, hgr⟩ := feed_literal_total cs [c2, c3, c4, c5] .req_http_h r
      (by simp [literal_left])
    rw [hg]
    exact ⟨_, rfl, hgr, by simp [h1, List.replicate],
      by simp, by simp [h1], by simp [h1], by simp [h1], by simp [h1], hthrough⟩

/-- The lower-case `http/` is rejected at its first character, `HTTp/` at its fourth, and
`HTTP/` passes. -/
theorem http_literal_exact_witness :
    (∃ f, feed [] .req_http_h Request.empty [104, 116, 116, 112, 47] = some f ∧
      f.statuses.take 1 = [.reject]) ∧
    (∃ f, feed [] .req_http_h Request.empty [72, 84, 84, 112, 47] = some f ∧
      f.statuses.take 4 = [.in_progress, .in_progress, .in_progress, .reject]) ∧
    (∃ f, feed [] .req_http_h Request.empty [72, 84, 84, 80, 47] = some f ∧
      f.statuses = List.replicate 5 .in_progress ∧ f.state_ = .req_http_major) := by
  refine ⟨?_, ?_, ?_⟩
  · obtain ⟨f, hf, -, -, h, -⟩ := http_literal_exact [] Request.empty 104 116 116 112 47
    exact ⟨f, hf, h (by decide)⟩
  · obtain ⟨f, hf, -, -, -, -, -, h, -⟩ := http_literal_exact [] Request.empty 72 84 84 112 47
    exact ⟨f, hf, h rfl rfl rfl (by decide)⟩
  · obtain ⟨f, hf, -, h, -⟩ := http_literal_exact [] Request.empty 72 84 84 80 47
    exact ⟨f, hf, h.mpr rfl⟩

/-! ## RequestParser: what an accepted input looks like -/

theorem seen_version_cons (c : Int) (hist : CString) (h : seen_version hist) :
    seen_version (c :: hist) := by
  obtain ⟨post, d2, d1, pre, h1, h2, rfl⟩ := h
  exact ⟨c :: post, d2, d1, pre, h1, h2, rfl⟩

/-- One call answered in_progress keeps the picture of the characters fed so far. -/
theorem seen_step (cs : CString) (st : State) (r : Request) (c : Int) (hist : CString)
    (res : Consumed) (hseen : seen st hist) (h : consume cs st r c = some res)
    (hs : res.status = .in_progress) : seen res.state_ (c :: hist) := by
  cases st <;> simp only [consume, consume_req_field_name] at h <;>
    (try split_ifs at h) <;>
    (try (simp only [Option.map_eq_some'] at h
          obtain ⟨q, -, h⟩ := h)) <;>
    (try simp only [Option.some.injEq] at h) <;>
    subst h <;>
    (try (simp at hs; done)) <;>
    simp only [seen] at hseen ⊢ <;>
    simp_all [is_cr, is_lf, seen_version_cons] <;>
    first
    | (obtain ⟨d1, hd1, x, rfl⟩ := hseen
       exact ⟨c, d1, hd1, by assumption, rfl, x, rfl⟩)
    | (obtain ⟨d2, d1, hd1, hd2, x, rfl⟩ := hseen
       exact ⟨⟨[], d2, d1, x, hd1, hd2, rfl⟩, _, rfl⟩)

/-- A run of in_progress answers closed by an accept, from a state whose picture of the
characters fed before is `hist`: the characters fed in all, the latest first, contain the
version line and start with LF CR LF CR. -/
theorem accept_sound_from (cs : CString) (w : CString) :
    ∀ (st : State) (r : Request) (hist : CString) (f : Fed), seen st hist →
      feed cs st r w = some f →
      f.statuses = List.replicate (w.length - 1) .in_progress ++ [.accept] →
      seen_version (w.reverse ++ hist) ∧
      ∃ pre, w.reverse ++ hist = 10 :: 13 :: 10 :: 13 :: pre := by
  induction w with
  | nil =>
    intro st r hist f _ hfeed hst
    rw [feed_nil] at hfeed
    cases hfeed
    simp at hst
  | cons c w ih =>
    intro st r hist f hseen hfeed hst
    rw [feed_cons] at hfeed
    cases hc : consume cs st r c with
    | none => simp [hc] at hfeed
    | some res =>
      simp only [hc, Option.some_bind, Option.map_eq_some'] at hfeed
      obtain ⟨f2, hf2, rfl⟩ := hfeed
      cases w with
      | nil =>
        rw [feed_nil] at hf2
        cases hf2
        have hacc : res.status = .accept := by simpa using hst
        obtain ⟨rfl, rfl, -⟩ := consume_accept_unchanged cs st r c res hc hacc
        obtain ⟨hv, pre, rfl⟩ := hseen
        exact ⟨seen_version_cons 10 _ hv, pre, rfl⟩
      | cons c2 w =>
        have hst2 : res.status :: f2.statuses =
            .in_progress :: (List.replicate w.length .in_progress ++ [.accept]) := by
          simpa [List.replicate_succ] using hst
        have hip : res.status = .in_progress := (List.cons.inj hst2).1
        have htail : f2.statuses =
            List.replicate ((c2 :: w).length - 1) .in_progress ++ [.accept] := by
          simpa using (List.cons.inj hst2).2
        have hnext := ih res.state_ res.request (c :: hist) f2
          (seen_step cs st r c hist res hseen hc hip) hf2 htail
        simpa using hnext

/-- C18: soundness of accept. For every character sequence fed one at a time from
`req_start` and an empty Request, if `consume` returns in_progress for every character
before the last and accept for the last, the sequence ends with CR LF CR LF and contains
the literal `HTTP/` followed by a digit, `.`, a digit and CR LF. -/
theorem accept_sound (cs : CString) (w : CString) (f : Fed)
    (hfeed : feed cs .req_start Request.empty w = some f)
    (hst : f.statuses = List.replicate (w.length - 1) .in_progress ++ [.accept]) :
    (∃ pre, w = pre ++ [13, 10, 13, 10]) ∧
    ∃ pre d1 d2 post, is_digit d1 = true ∧ is_digit d2 = true ∧
      w = pre ++ [72, 84, 84, 80, 47, d1, 46, d2, 13, 10] ++ post := by
  obtain ⟨⟨post, d2, d1, pre, hd1, hd2, hv⟩, pre2, hend⟩ :=
    accept_sound_from cs w .req_start Request.empty [] f trivial hfeed hst
  rw [List.append_nil] at hv hend
  constructor
  · refine ⟨pre2.reverse, ?_⟩
    have := congrArg List.reverse hend
    simpa using this
  · refine ⟨pre.reverse, d1, d2, post.reverse, hd1, hd2, ?_⟩
    have := congrArg List.reverse hv
    simpa using this

/-- The test input is accepted at its last character; it ends with CR LF CR LF and
contains `HTTP/1.0` CR LF. -/
theorem accept_sound_witness :
    feed (lit "/hi") .req_start Request.empty
        (lit "GET /hi HTTP/1.0\r\nHost: 127.0.0.1:8888\r\nUser-Agent: curl/7.43.0\r\nAccept: */*\r\n\r\n") =
      some ⟨.req_header_end,
        { version_major_ := 1, version_minor_ := 0,
          headers_ := [(lit "Host", lit "127.0.0.1:8888"),
            (lit "User-Agent", lit "curl/7.43.0"), (lit "Accept", lit "*/*")],
          body_ := [], method_ := lit "GET", uri_ := lit "/hi" },
        List.replicate 79 .in_progress ++ [.accept]⟩ ∧
    (∃ pre, lit "GET /hi HTTP/1.0\r\nHost: 127.0.0.1:8888\r\nUser-Agent: curl/7.43.0\r\nAccept: */*\r\n\r\n" =
      pre ++ [13, 10, 13, 10]) ∧
    ∃ pre d1 d2 post, is_digit d1 = true ∧ is_digit d2 = true ∧
      lit "GET /hi HTTP/1.0\r\nHost: 127.0.0.1:8888\r\nUser-Agent: curl/7.43.0\r\nAccept: */*\r\n\r\n" =
        pre ++ [72, 84, 84, 80, 47, d1, 46, d2, 13, 10] ++ post :=
  ⟨by decide,
   accept_sound (lit "/hi")
     (lit "GET /hi HTTP/1.0\r\nHost: 127.0.0.1:8888\r\nUser-Agent: curl/7.43.0\r\nAccept: */*\r\n\r\n")
     ⟨.req_header_end,
        { version_major_ := 1, version_minor_ := 0,
          headers_ := [(lit "Host", lit "127.0.0.1:8888"),
            (lit "User-Agent", lit "curl/7.43.0"), (lit "Accept", lit "*/*")],
          body_ := [], method_ := lit "GET", uri_ := lit "/hi" },
        List.replicate 79 .in_progress ++ [.accept]⟩
     (by decide) (by decide)⟩

end Http
